import Mathlib

set_option maxRecDepth 8000

/-!
Verification development for the todo-cron-notion repository (src/main.py).

The program reconciles a Notion to-do page once per run: it resets the
"Daily" checklist while recording a completion ratio, migrates unchecked
"Tomorrow" items into "Today", archives completed items into a log database,
demotes "Today" items into "Backlog", removes stray empty paragraphs inside
"Backlog", and guarantees a placeholder item in Today/Tomorrow/Daily.

This file shallowly embeds the program: blocks become a record type, the
Notion store becomes a list of blocks plus a fresh-id counter, and every
remote call of the script becomes a pure state transformation that also
records an event in a trace.  Python exceptions are modelled by an error
type distinguishing SystemExit (raised by the helper functions of the
script on a non-ok HTTP response) from ordinary exceptions (such as
transport errors raised by the requests library), because the script
catches only the latter (`except Exception`).
-/

/-- Block kinds of src/main.py: the three heading levels of Notion are
collapsed into one `heading` kind (the script treats heading_1/2/3
identically everywhere), `paragraph`, `todo` (Notion `to_do`), and `other`
for any block type the script ignores (its `rich_text_to_plain` returns ""
for those). -/
inductive BlockKind
  | heading
  | paragraph
  | todo
  | other
  deriving DecidableEq

/-- A block as the script sees it: opaque id, kind, the concatenation of the
plain_text spans of its rich_text (raw, unstripped), the `checked` flag
(meaningful for `todo` blocks; `False` by convention otherwise, matching
`b["to_do"].get("checked", False)`), and the color field. -/
structure Block where
  id : Nat
  kind : BlockKind
  text : String
  checked : Bool
  color : String
  deriving DecidableEq

/-- Payload of a block-creation call: a block without an id (the store
assigns ids on insertion). -/
structure NewBlock where
  kind : BlockKind
  text : String
  checked : Bool
  color : String
  deriving DecidableEq

/-- Python str.strip() default whitespace (the characters relevant here). -/
def isPySpace (c : Char) : Bool :=
  c == ' ' || c == '\t' || c == '\n' || c == '\r' || c == '\x0b' || c == '\x0c'

/-- Both-sided whitespace strip on a character list. -/
def trimChars (cs : List Char) : List Char :=
  ((cs.dropWhile isPySpace).reverse.dropWhile isPySpace).reverse

/-- Python s.strip(). -/
def strTrim (s : String) : String := ⟨trimChars s.data⟩

/-- Python s.rstrip(":"): drop every trailing colon. -/
def rstripColons (s : String) : String :=
  ⟨(s.data.reverse.dropWhile (· == ':')).reverse⟩

/-- Python s.lower() (per character, as the script only uses ASCII names). -/
def strToLower (s : String) : String := ⟨s.data.map Char.toLower⟩

/-- Python s.startswith(pre). -/
def strStartsWith (s pre : String) : Bool := pre.data.isPrefixOf s.data

/-- Python s.capitalize() as used by the script: it is only ever applied to
the all-lowercase literals "daily"/"today"/"tomorrow"/"backlog", where it
just upcases the first character. -/
def capitalizeStr (s : String) : String :=
  match s.data with
  | [] => ⟨[]⟩
  | c :: cs => ⟨c.toUpper :: cs⟩

/-- src/main.py `rich_text_to_plain`: join of the plain_text spans, stripped;
"" for block types other than headings, paragraphs and to_do. -/
def rich_text_to_plain (b : Block) : String :=
  match b.kind with
  | .heading => strTrim b.text
  | .paragraph => strTrim b.text
  | .todo => strTrim b.text
  | .other => ""

/-- src/main.py `is_empty_paragraph`: a paragraph whose stripped text is "". -/
def is_empty_paragraph (b : Block) : Bool :=
  b.kind == .paragraph && strTrim b.text == ""

/-- src/main.py `is_header_with_text`: a heading or paragraph whose plain
text, after rstrip(":"), strip() and lower(), starts with one of the target
strings (lowered). -/
def is_header_with_text (b : Block) (targets : List String) : Bool :=
  if b.kind == .heading || b.kind == .paragraph then
    let text := strToLower (strTrim (rstripColons (rich_text_to_plain b)))
    targets.any (fun t => strStartsWith text (strToLower t))
  else false

/-- Python list slice l[s:e] (e may exceed the length; e below s gives []). -/
def pySlice (l : List Block) (s e : Nat) : List Block := (l.drop s).take (e - s)

/-- Python min(l) with a default for the empty list
(`min(end_candidates) if end_candidates else n`). -/
def minList (l : List Nat) (dflt : Nat) : Nat :=
  match l with
  | [] => dflt
  | x :: xs => xs.foldl Nat.min x

/-- Index of the first element satisfying the predicate. -/
def findFirstIdx (p : Block → Bool) : List Block → Option Nat
  | [] => none
  | b :: rest => if p b then some 0 else (findFirstIdx p rest).map (· + 1)

/-- Index of the first block recognized as the header of the given section
name.  src/main.py computes these four indices in one scan with
`if idx is None and is_header_with_text(b, [name])`, which is exactly the
first matching index per name. -/
def headerIdx (blocks : List Block) (name : String) : Option Nat :=
  findFirstIdx (fun b => is_header_with_text b [name]) blocks

/-- The four section slices returned by src/main.py `partition_by_sections`. -/
structure Sections where
  daily : List Block
  today : List Block
  tomorrow : List Block
  backlog : List Block
  deriving DecidableEq

/-- src/main.py `partition_by_sections`. -/
def partition_by_sections (blocks : List Block) : Sections :=
  let idx_daily := headerIdx blocks "Daily"
  let idx_today := headerIdx blocks "Today"
  let idx_tomorrow := headerIdx blocks "Tomorrow"
  let idx_backlog := headerIdx blocks "Backlog"
  let n := blocks.length
  { daily := match idx_daily with
      | some i => pySlice blocks (i+1)
          (minList ([idx_today, idx_tomorrow, idx_backlog].filterMap id) n)
      | none => []
    today := match idx_today with
      | some i => pySlice blocks (i+1)
          (minList ([idx_tomorrow, idx_backlog].filterMap id) n)
      | none => []
    tomorrow := match idx_tomorrow with
      | some i => pySlice blocks (i+1)
          (minList ([idx_backlog].filterMap id) n)
      | none => []
    backlog := match idx_backlog with
      | some i => pySlice blocks (i+1) n
      | none => [] }

/-- src/main.py `get_section_range`.  The Python function tests
`section_name == X and X_idx is not None` in sequence and falls through to
`(0, 0)`; since the four name tests are mutually exclusive, this is the same
as matching on the name first and on the index second. -/
def get_section_range (blocks : List Block) (section_name : String) : Nat × Nat :=
  let daily_idx := headerIdx blocks "Daily"
  let today_idx := headerIdx blocks "Today"
  let tomorrow_idx := headerIdx blocks "Tomorrow"
  let backlog_idx := headerIdx blocks "Backlog"
  let n := blocks.length
  if section_name == "daily" then
    match daily_idx with
    | some i => (i+1, minList ([today_idx, tomorrow_idx, backlog_idx].filterMap id) n)
    | none => (0, 0)
  else if section_name == "today" then
    match today_idx with
    | some i => (i+1, minList ([tomorrow_idx, backlog_idx].filterMap id) n)
    | none => (0, 0)
  else if section_name == "tomorrow" then
    match tomorrow_idx with
    | some i => (i+1, match backlog_idx with | some b => b | none => n)
    | none => (0, 0)
  else if section_name == "backlog" then
    match backlog_idx with
    | some i => (i+1, n)
    | none => (0, 0)
  else (0, 0)

/-- src/main.py `section_header_id`: id of the first block recognized as the
header of the (lowercase-named) section; the script capitalizes the name
before matching, which is irrelevant to the case-folded comparison. -/
def section_header_id (blocks : List Block) (sec : String) : Option Nat :=
  match blocks.find? (fun b => is_header_with_text b [capitalizeStr sec]) with
  | some b => some b.id
  | none => none

/-- src/main.py `clone_todo_block`: an unchecked copy of a to_do block with
the same rich_text and color.  The script raises on non-to_do input; every
caller guards with `b.get("type") != "to_do"`, so the embedding is total. -/
def clone_todo_block (b : Block) : NewBlock :=
  { kind := .todo, text := b.text, checked := false, color := b.color }

/-- The authoritative copy of the page: the ordered list of top-level blocks
plus the counter from which the store assigns ids to inserted blocks. -/
structure Store where
  doc : List Block
  nextId : Nat
  deriving DecidableEq

/-- Trace events: one per remote call of the script (fetch, checkbox patch,
block insertion, block deletion, log-database row creation), plus `warned`
for a printed warning and `usedSlice` marking the points where the script
binds a section slice that a subsequent step iterates over (annotated with
the slice it bound there). -/
inductive Event
  | fetched (doc : List Block)
  | setCheckedEv (id : Nat) (v : Bool)
  | insertedAfter (anchor : Nat) (newBlocks : List Block) (docAfter : List Block)
  | deleted (id : Nat)
  | logCompletion (s : String)
  | logDone (s : String)
  | warned (ctx : String)
  | usedSlice (name : String) (blocks : List Block)
  deriving DecidableEq

/-- Python exceptions, split the way `except Exception` splits them:
`systemExit` (what the script raises itself on a non-ok HTTP response;
not a subclass of Exception, hence not caught) versus `exception`
(ordinary exceptions, e.g. from the transport layer; caught). -/
inductive PyErr
  | systemExit (msg : String)
  | exception (msg : String)
  deriving DecidableEq

/-- Run state threaded through the embedding: the remote store plus the
trace of remote calls issued so far. -/
structure RS where
  store : Store
  trace : List Event
  deriving DecidableEq

/-- The embedding monad: state passing over `RS` with Python exceptions. -/
def M (α : Type) : Type := RS → RS × Except PyErr α

def M.pure (a : α) : M α := fun rs => (rs, Except.ok a)

def M.bind (x : M α) (f : α → M β) : M β := fun rs =>
  match x rs with
  | (rs', Except.ok a) => f a rs'
  | (rs', Except.error e) => (rs', Except.error e)

instance instMonadM : Monad M where
  pure := M.pure
  bind := M.bind

/-- Raise a Python exception (state changes already made persist, since the
remote store is not rolled back by a local exception). -/
def raiseM (e : PyErr) : M α := fun rs => (rs, Except.error e)

/-- Append an event to the trace. -/
def emitM (e : Event) : M Unit := fun rs =>
  ({ rs with trace := rs.trace ++ [e] }, Except.ok ())

/-- src/main.py `get_all_children`: return the current block list (and record
the fetch). -/
def get_all_children : M (List Block) := fun rs =>
  ({ rs with trace := rs.trace ++ [Event.fetched rs.store.doc] },
   Except.ok rs.store.doc)

/-- Document update of src/main.py `set_todo_checked`: patch the checked
flag of the block with the given id. -/
def setCheckedDoc (doc : List Block) (i : Nat) (v : Bool) : List Block :=
  doc.map (fun b => if b.id = i then { b with checked := v } else b)

/-- src/main.py `set_todo_checked` (success path). -/
def set_todo_checked (i : Nat) (v : Bool) : M Unit := fun rs =>
  ({ store := { rs.store with doc := setCheckedDoc rs.store.doc i v },
     trace := rs.trace ++ [Event.setCheckedEv i v] }, Except.ok ())

/-- Document update of src/main.py `delete_block`: archiving removes the
block from the children list. -/
def deleteDoc (doc : List Block) (i : Nat) : List Block :=
  doc.filter (fun b => b.id != i)

/-- src/main.py `delete_block` (success path). -/
def delete_block (i : Nat) : M Unit := fun rs =>
  ({ store := { rs.store with doc := deleteDoc rs.store.doc i },
     trace := rs.trace ++ [Event.deleted i] }, Except.ok ())

/-- Ids assigned by the store to an inserted batch: consecutive from `n`. -/
def assignIds (n : Nat) : List NewBlock → List Block
  | [] => []
  | nb :: rest =>
      { id := n, kind := nb.kind, text := nb.text, checked := nb.checked,
        color := nb.color } :: assignIds (n+1) rest

/-- Document update of src/main.py `append_blocks_after`: the batch is
inserted immediately after the first block carrying the anchor id.  Every
call site of the script first verifies that the anchor header exists, so
the anchor-missing branch (doc unchanged) is never exercised. -/
def insertAfterDoc (doc : List Block) (anchor : Nat) (news : List Block) :
    List Block :=
  match doc with
  | [] => []
  | b :: rest =>
      if b.id = anchor then b :: (news ++ rest)
      else b :: insertAfterDoc rest anchor news

/-- src/main.py `append_blocks_after` (success path): assign fresh ids and
insert after the anchor. -/
def append_blocks_after (anchor : Nat) (news : List NewBlock) : M Unit :=
  fun rs =>
    let assigned := assignIds rs.store.nextId news
    let doc2 := insertAfterDoc rs.store.doc anchor assigned
    ({ store := { doc := doc2, nextId := rs.store.nextId + news.length },
       trace := rs.trace ++ [Event.insertedAfter anchor assigned doc2] },
     Except.ok ())

/-- Outcome of one log-database write attempt, as configured in the
environment: success, a non-ok HTTP response (the script then raises
SystemExit), or a transport-level exception (an ordinary Exception). -/
inductive WriteOutcome
  | ok
  | httpErr
  | transportErr
  deriving DecidableEq

/-- Run environment: whether the two log databases were resolved (an
unresolved database makes the corresponding log call a silent no-op), and
the outcome of write attempts against each. -/
structure Env where
  dailyDb : Bool
  doneDb : Bool
  dailyWrite : WriteOutcome
  doneWrite : WriteOutcome
  deriving DecidableEq

/-- src/main.py `create_page_in_db`: on a non-ok response the script raises
SystemExit; a transport failure from requests.post surfaces as an ordinary
exception. -/
def create_page_in_db (w : WriteOutcome) (record : Event) : M Unit :=
  match w with
  | .ok => emitM record
  | .httpErr => raiseM (.systemExit "Failed to create page in DB")
  | .transportErr => raiseM (.exception "requests transport error")

/-- src/main.py `log_done_item`: skip silently when the Done database was
not resolved; otherwise create a row whose title is the item text, or
"Task" when the text is empty (`task_text or "Task"`). -/
def log_done_item (env : Env) (task_text : String) : M Unit :=
  if env.doneDb then
    create_page_in_db env.doneWrite
      (Event.logDone (if task_text == "" then "Task" else task_text))
  else M.pure ()

/-- src/main.py `log_daily_completion`: skip silently when the Daily
Completion database was not resolved; otherwise create a row labelled
"completed/total". -/
def log_daily_completion (env : Env) (completed total : Nat) : M Unit :=
  if env.dailyDb then
    create_page_in_db env.dailyWrite
      (Event.logCompletion (toString completed ++ "/" ++ toString total))
  else M.pure ()

/-- `try: x except Exception as e: print(warning)`: ordinary exceptions are
downgraded to a warning; SystemExit is not an Exception and escapes. -/
def tryWarn (x : M Unit) (ctx : String) : M Unit := fun rs =>
  match x rs with
  | (rs', Except.ok _) => (rs', Except.ok ())
  | (rs', Except.error (.exception _)) =>
      ({ rs' with trace := rs'.trace ++ [Event.warned ctx] }, Except.ok ())
  | (rs', Except.error (.systemExit m)) => (rs', Except.error (.systemExit m))

/-- `if not x: raise SystemExit(msg)` on an optional value. -/
def requireSome (o : Option α) (msg : String) : M α :=
  match o with
  | some a => M.pure a
  | none => raiseM (.systemExit msg)

/-- (completed, total) over the Daily slice, counted exactly as the loop of
`cleanup_todo_page` does before any checkbox is reset: the counters read the
fetched snapshot, which the remote `set_todo_checked` calls do not mutate. -/
def dailyStats (l : List Block) : Nat × Nat :=
  ((l.filter (fun b => b.kind == .todo && b.checked)).length,
   (l.filter (fun b => b.kind == .todo)).length)

/-- The checkbox-reset half of the Daily loop: uncheck every to_do block of
the Daily slice, in order. -/
def dailyLoop : List Block → M Unit
  | [] => M.pure ()
  | b :: rest => do
      if b.kind == .todo then set_todo_checked b.id false else M.pure ()
      dailyLoop rest

/-- The Tomorrow loop of `cleanup_todo_page` (lines 329-340): per to_do item,
checked items are best-effort archived and marked for deletion; unchecked
items are cloned for Today and also marked for deletion.  Returns
(to_append_today, to_delete_tomorrow_ids) in iteration order. -/
def tomorrowPlan (env : Env) : List Block → M (List NewBlock × List Nat)
  | [] => M.pure ([], [])
  | b :: rest => do
      if b.kind == .todo then
        if b.checked then do
          tryWarn (log_done_item env (rich_text_to_plain b)) "Failed to log Done item"
          let (a, d) ← tomorrowPlan env rest
          M.pure (a, b.id :: d)
        else do
          let (a, d) ← tomorrowPlan env rest
          M.pure (clone_todo_block b :: a, b.id :: d)
      else tomorrowPlan env rest

/-- The Backlog loop of `cleanup_todo_page` (lines 354-360): checked to_do
items are best-effort archived and deleted immediately. -/
def backlogLoop (env : Env) : List Block → M Unit
  | [] => M.pure ()
  | b :: rest => do
      if b.kind == .todo && b.checked then do
        tryWarn (log_done_item env (rich_text_to_plain b)) "Failed to log Done item"
        delete_block b.id
      else M.pure ()
      backlogLoop env rest

/-- The Today loop of `cleanup_todo_page` (lines 366-378): same plan shape as
the Tomorrow loop — checked items archived and marked, unchecked items
cloned for Backlog and marked.  Returns (to_append, to_delete_ids). -/
def todayPlan (env : Env) : List Block → M (List NewBlock × List Nat)
  | [] => M.pure ([], [])
  | b :: rest => do
      if b.kind == .todo then
        if b.checked then do
          tryWarn (log_done_item env (rich_text_to_plain b)) "Failed to log Done item"
          let (a, d) ← todayPlan env rest
          M.pure (a, b.id :: d)
        else do
          let (a, d) ← todayPlan env rest
          M.pure (clone_todo_block b :: a, b.id :: d)
      else todayPlan env rest

/-- src/main.py `remove_empty_paragraphs_in_slice`: collect the ids of the
empty paragraphs inside the [s, e) slice first, then delete them. -/
def remove_empty_paragraphs_in_slice (blocks : List Block) (s e : Nat) : M Unit :=
  (((pySlice blocks s e).filter is_empty_paragraph).map Block.id).forM delete_block

/-- The payload of the placeholder inserts of `cleanup_todo_page`: one empty
unchecked checkbox. -/
def emptyTodoNew : NewBlock :=
  { kind := .todo, text := "", checked := false, color := "default" }

/-- One placeholder clause of `cleanup_todo_page` (e.g. lines 399-411): when
the given section slice (taken from `parts_after`) has no to_do block, look
the header up in `blocks_after` and, if found, insert one placeholder right
after it. -/
def ensurePlaceholder (blocks_after : List Block) (sectionSlice : List Block)
    (sec : String) : M Unit := do
  if !(sectionSlice.any (fun b => b.kind == .todo)) then
    match section_header_id blocks_after sec with
    | some hid => append_blocks_after hid [emptyTodoNew]
    | none => M.pure ()
  else M.pure ()

/-- src/main.py `cleanup_todo_page`, line by line.  Notes on fidelity:
- the Daily loop counts and unchecks in one pass; since the counters are
  pure over the fetched snapshot and `set_todo_checked` only touches the
  remote store, counting first (`dailyStats`) and unchecking second
  (`dailyLoop`) issues the same calls in the same order;
- `start_today/end_today/start_backlog/end_backlog` (lines 318-319) and
  `tomorrow_header` (line 310) are computed by the script but never used,
  and are omitted;
- the final try/except of the placeholder step re-raises as SystemExit; the
  operations inside it are total in this embedding (fetch and insert on the
  success path), so the wrapper is the identity and is omitted. -/
def cleanup_todo_page (env : Env) : M Unit := do
  let blocks ← get_all_children
  let parts := partition_by_sections blocks
  let daily_blocks := parts.daily
  emitM (Event.usedSlice "daily" daily_blocks)
  let st := dailyStats daily_blocks
  dailyLoop daily_blocks
  if st.2 > 0 then
    tryWarn (log_daily_completion env st.1 st.2) "Failed to write Daily Completion"
  else M.pure ()
  let today_header := section_header_id blocks "today"
  let backlog_header := section_header_id blocks "backlog"
  let th ← requireSome today_header "Could not find Today header"
  let bh ← requireSome backlog_header "Could not find Backlog header"
  let tomorrow_blocks := parts.tomorrow
  emitM (Event.usedSlice "tomorrow" tomorrow_blocks)
  let plan1 ← tomorrowPlan env tomorrow_blocks
  let to_append_today := plan1.1
  let to_delete_tomorrow_ids := plan1.2
  if !to_append_today.isEmpty then
    append_blocks_after th to_append_today
  else M.pure ()
  to_delete_tomorrow_ids.forM delete_block
  let today_blocks := parts.today
  let backlog_blocks := parts.backlog
  emitM (Event.usedSlice "today" today_blocks)
  emitM (Event.usedSlice "backlog" backlog_blocks)
  backlogLoop env backlog_blocks
  let plan2 ← todayPlan env today_blocks
  let to_append := plan2.1
  let to_delete_ids := plan2.2
  if !to_append.isEmpty then do
    let blocks2 ← get_all_children
    let bh2 := (section_header_id blocks2 "backlog").getD bh
    append_blocks_after bh2 to_append
  else M.pure ()
  to_delete_ids.forM delete_block
  let blocks3 ← get_all_children
  let r := get_section_range blocks3 "backlog"
  emitM (Event.usedSlice "backlog_repair" (pySlice blocks3 r.1 r.2))
  if r.2 > r.1 then
    remove_empty_paragraphs_in_slice blocks3 r.1 r.2
  else M.pure ()
  let blocks_after ← get_all_children
  let parts_after := partition_by_sections blocks_after
  emitM (Event.usedSlice "placeholder_today" parts_after.today)
  ensurePlaceholder blocks_after parts_after.today "today"
  emitM (Event.usedSlice "placeholder_tomorrow" parts_after.tomorrow)
  ensurePlaceholder blocks_after parts_after.tomorrow "tomorrow"
  emitM (Event.usedSlice "placeholder_daily" parts_after.daily)
  ensurePlaceholder blocks_after parts_after.daily "daily"

/-- Whole-run entry point on a given store: empty trace at start. -/
def runCleanup (env : Env) (s : Store) : RS × Except PyErr Unit :=
  cleanup_todo_page env { store := s, trace := [] }

/-- Environment with both log databases resolved and all writes succeeding. -/
def envHappy : Env :=
  { dailyDb := true, doneDb := true, dailyWrite := .ok, doneWrite := .ok }

/-! ### Pure stage functions

The run of `cleanup_todo_page` is a straight-line sequence of remote calls;
the following pure functions compute, stage by stage, the document and the
trace it produces on the success path.  They are related to the monadic
embedding by `runCleanup_nf` below. -/

/-- Document effect of the Daily loop: uncheck each to_do of the slice. -/
def applyDailyReset : List Block → List Block → List Block
  | [], doc => doc
  | b :: rest, doc =>
      applyDailyReset rest
        (if b.kind == .todo then setCheckedDoc doc b.id false else doc)

/-- Events of the Daily loop. -/
def dailyEvs : List Block → List Event
  | [] => []
  | b :: rest =>
      (if b.kind == .todo then [Event.setCheckedEv b.id false] else [])
        ++ dailyEvs rest

/-- Events of one best-effort `log_done_item` call. -/
def doneEvs (env : Env) (txt : String) : List Event :=
  if env.doneDb then
    match env.doneWrite with
    | .ok => [Event.logDone (if txt == "" then "Task" else txt)]
    | .httpErr => []
    | .transportErr => [Event.warned "Failed to log Done item"]
  else []

/-- Events of one best-effort `log_daily_completion` call. -/
def dailyLogEvs (env : Env) (completed total : Nat) : List Event :=
  if env.dailyDb then
    match env.dailyWrite with
    | .ok => [Event.logCompletion (toString completed ++ "/" ++ toString total)]
    | .httpErr => []
    | .transportErr => [Event.warned "Failed to write Daily Completion"]
  else []

/-- Events of the Tomorrow/Today planning loops (archive logs only). -/
def planEvs (env : Env) : List Block → List Event
  | [] => []
  | b :: rest =>
      (if b.kind == .todo && b.checked then doneEvs env (rich_text_to_plain b)
       else []) ++ planEvs env rest

/-- Unchecked copies produced by the Tomorrow/Today planning loops. -/
def planClones (l : List Block) : List NewBlock :=
  (l.filter (fun b => b.kind == .todo && !b.checked)).map clone_todo_block

/-- Ids marked for deletion by the Tomorrow/Today planning loops: every
to_do of the slice, checked or not. -/
def planDeleteIds (l : List Block) : List Nat :=
  (l.filter (fun b => b.kind == .todo)).map Block.id

/-- Sequential deletion by id. -/
def deleteIds : List Nat → List Block → List Block
  | [], doc => doc
  | i :: rest, doc => deleteIds rest (deleteDoc doc i)

/-- Events of the Backlog cleanup loop (archive log and deletion per checked
to_do). -/
def bkEvs (env : Env) : List Block → List Event
  | [] => []
  | b :: rest =>
      (if b.kind == .todo && b.checked then
        doneEvs env (rich_text_to_plain b) ++ [Event.deleted b.id]
       else []) ++ bkEvs env rest

/-- Ids deleted by the Backlog cleanup loop. -/
def bkDeleteIds (l : List Block) : List Nat :=
  (l.filter (fun b => b.kind == .todo && b.checked)).map Block.id

/-- Store effect of one placeholder clause. -/
def placeholderStore (blocks_after : List Block) (sectionSlice : List Block)
    (sec : String) (st : Store) : Store :=
  if !(sectionSlice.any (fun b => b.kind == .todo)) then
    match section_header_id blocks_after sec with
    | some hid =>
        { doc := insertAfterDoc st.doc hid (assignIds st.nextId [emptyTodoNew]),
          nextId := st.nextId + 1 }
    | none => st
  else st

/-- Events of one placeholder clause. -/
def placeholderEvs (blocks_after : List Block) (sectionSlice : List Block)
    (sec : String) (st : Store) : List Event :=
  if !(sectionSlice.any (fun b => b.kind == .todo)) then
    match section_header_id blocks_after sec with
    | some hid =>
        [Event.insertedAfter hid (assignIds st.nextId [emptyTodoNew])
          (insertAfterDoc st.doc hid (assignIds st.nextId [emptyTodoNew]))]
    | none => []
  else []

/-- Stage values of a run starting from store `s` (success path).  The
`getD` fallbacks are irrelevant under the header-presence hypotheses of
`runCleanup_nf`. -/
def partsOf (s : Store) : Sections := partition_by_sections s.doc

def thOf (s : Store) : Nat := (section_header_id s.doc "today").getD 0

def bhOf (s : Store) : Nat := (section_header_id s.doc "backlog").getD 0

def statsOf (s : Store) : Nat × Nat := dailyStats (partsOf s).daily

/-- Document after the Daily reset. -/
def doc1Of (s : Store) : List Block := applyDailyReset (partsOf s).daily s.doc

def mClOf (s : Store) : List NewBlock := planClones (partsOf s).tomorrow

def mDelOf (s : Store) : List Nat := planDeleteIds (partsOf s).tomorrow

def ins1Of (s : Store) : List Block := assignIds s.nextId (mClOf s)

/-- Document after the Tomorrow-migration append. -/
def doc2Of (s : Store) : List Block :=
  if (mClOf s).isEmpty then doc1Of s
  else insertAfterDoc (doc1Of s) (thOf s) (ins1Of s)

def n1Of (s : Store) : Nat :=
  if (mClOf s).isEmpty then s.nextId else s.nextId + (mClOf s).length

/-- Document after the Tomorrow-migration deletions. -/
def doc3Of (s : Store) : List Block := deleteIds (mDelOf s) (doc2Of s)

def bkDelOf (s : Store) : List Nat := bkDeleteIds (partsOf s).backlog

/-- Document after the Backlog cleanup. -/
def doc4Of (s : Store) : List Block := deleteIds (bkDelOf s) (doc3Of s)

def tClOf (s : Store) : List NewBlock := planClones (partsOf s).today

def tDelOf (s : Store) : List Nat := planDeleteIds (partsOf s).today

/-- The re-fetched Backlog anchor used by the Today-demotion append. -/
def bh2Of (s : Store) : Nat :=
  (section_header_id (doc4Of s) "backlog").getD (bhOf s)

def ins2Of (s : Store) : List Block := assignIds (n1Of s) (tClOf s)

/-- Document after the Today-demotion append. -/
def doc5Of (s : Store) : List Block :=
  if (tClOf s).isEmpty then doc4Of s
  else insertAfterDoc (doc4Of s) (bh2Of s) (ins2Of s)

def n2Of (s : Store) : Nat :=
  if (tClOf s).isEmpty then n1Of s else n1Of s + (tClOf s).length

/-- Document after the Today-demotion deletions. -/
def doc6Of (s : Store) : List Block := deleteIds (tDelOf s) (doc5Of s)

def repRangeOf (s : Store) : Nat × Nat := get_section_range (doc6Of s) "backlog"

def repSliceOf (s : Store) : List Block :=
  pySlice (doc6Of s) (repRangeOf s).1 (repRangeOf s).2

def repDelOf (s : Store) : List Nat :=
  ((repSliceOf s).filter is_empty_paragraph).map Block.id

/-- Document after the Backlog contiguity repair. -/
def doc7Of (s : Store) : List Block := deleteIds (repDelOf s) (doc6Of s)

def parts7Of (s : Store) : Sections := partition_by_sections (doc7Of s)

def store7Of (s : Store) : Store := { doc := doc7Of s, nextId := n2Of s }

def store8Of (s : Store) : Store :=
  placeholderStore (doc7Of s) (parts7Of s).today "today" (store7Of s)

def store9Of (s : Store) : Store :=
  placeholderStore (doc7Of s) (parts7Of s).tomorrow "tomorrow" (store8Of s)

/-- Final store of the run (success path). -/
def storeFinOf (s : Store) : Store :=
  placeholderStore (doc7Of s) (parts7Of s).daily "daily" (store9Of s)

/-- Full event trace of the run (success path). -/
def traceNF (env : Env) (s : Store) : List Event :=
  [Event.fetched s.doc]
  ++ [Event.usedSlice "daily" (partsOf s).daily]
  ++ dailyEvs (partsOf s).daily
  ++ (if (statsOf s).2 > 0 then dailyLogEvs env (statsOf s).1 (statsOf s).2 else [])
  ++ [Event.usedSlice "tomorrow" (partsOf s).tomorrow]
  ++ planEvs env (partsOf s).tomorrow
  ++ (if (mClOf s).isEmpty then []
      else [Event.insertedAfter (thOf s) (ins1Of s) (doc2Of s)])
  ++ (mDelOf s).map Event.deleted
  ++ [Event.usedSlice "today" (partsOf s).today]
  ++ [Event.usedSlice "backlog" (partsOf s).backlog]
  ++ bkEvs env (partsOf s).backlog
  ++ planEvs env (partsOf s).today
  ++ (if (tClOf s).isEmpty then []
      else [Event.fetched (doc4Of s),
            Event.insertedAfter (bh2Of s) (ins2Of s) (doc5Of s)])
  ++ (tDelOf s).map Event.deleted
  ++ [Event.fetched (doc6Of s)]
  ++ [Event.usedSlice "backlog_repair" (repSliceOf s)]
  ++ (repDelOf s).map Event.deleted
  ++ [Event.fetched (doc7Of s)]
  ++ [Event.usedSlice "placeholder_today" (parts7Of s).today]
  ++ placeholderEvs (doc7Of s) (parts7Of s).today "today" (store7Of s)
  ++ [Event.usedSlice "placeholder_tomorrow" (parts7Of s).tomorrow]
  ++ placeholderEvs (doc7Of s) (parts7Of s).tomorrow "tomorrow" (store8Of s)
  ++ [Event.usedSlice "placeholder_daily" (parts7Of s).daily]
  ++ placeholderEvs (doc7Of s) (parts7Of s).daily "daily" (store9Of s)

/-- The Daily reset as a single map: blocks whose id belongs to the to_do
ids of the Daily slice get their checked flag cleared. -/
def resetFun (ids : List Nat) (z : Block) : Block :=
  if ids.contains z.id then { z with checked := false } else z

/-- Ids are pairwise distinct and below the fresh-id counter. -/
def IdsOK (n : Nat) (doc : List Block) : Prop :=
  (doc.map Block.id).Nodup ∧ ∀ z ∈ doc, z.id < n

/-- Origin tracking: every block with an id below the initial fresh-id
counter carries the kind and text of the like-identified block of the
initial document, and every block with a fresh id is a to_do (only clones
and placeholders are ever inserted). -/
def OrigOK (B : List Block) (n0 : Nat) (doc : List Block) : Prop :=
  ∀ z ∈ doc,
    (z.id < n0 → ∃ z0 ∈ B, z0.id = z.id ∧ z.kind = z0.kind ∧ z.text = z0.text)
    ∧ (n0 ≤ z.id → z.kind = BlockKind.todo)

/-- The ids below the initial counter, in document order. -/
def origIds (n0 : Nat) (doc : List Block) : List Nat :=
  (doc.map Block.id).filter (fun i => decide (i < n0))

/-- Membership in the initial Backlog range (the slice the contiguity
repair would target if computed on the initial snapshot). -/
def inBacklogRange (doc : List Block) (b : Block) : Prop :=
  b ∈ pySlice doc (get_section_range doc "backlog").1
        (get_section_range doc "backlog").2

instance (doc : List Block) (b : Block) : Decidable (inBacklogRange doc b) := by
  unfold inBacklogRange
  infer_instance

/-- The header recognized for a lowercase section key, shared by the
specification-side range definition below. -/
def headerIdxFor (blocks : List Block) (name : String) : Option Nat :=
  if name == "daily" then headerIdx blocks "Daily"
  else if name == "today" then headerIdx blocks "Today"
  else if name == "tomorrow" then headerIdx blocks "Tomorrow"
  else if name == "backlog" then headerIdx blocks "Backlog"
  else none

/-- Modelled from the spec (`rangeOf`, section 4.1), for the refinement
claim C5: the headers of sections that follow the given one in the fixed
precedence Daily < Today < Tomorrow < Backlog. -/
def laterHeaderIdxs (blocks : List Block) (name : String) : List (Option Nat) :=
  if name == "daily" then
    [headerIdx blocks "Today", headerIdx blocks "Tomorrow",
      headerIdx blocks "Backlog"]
  else if name == "today" then
    [headerIdx blocks "Tomorrow", headerIdx blocks "Backlog"]
  else if name == "tomorrow" then [headerIdx blocks "Backlog"]
  else []

/-- Modelled from the spec (section 4.1): "start = headerIndex+1; end = the
minimum index, among the headers of sections that conventionally follow
this one (fixed precedence: Daily < Today < Tomorrow < Backlog) and that
are present, otherwise the list length"; a section with no header present
is absent. -/
def rangeOf_fromSpec (blocks : List Block) (name : String) : Option (Nat × Nat) :=
  match headerIdxFor blocks name with
  | none => none
  | some h =>
      some (h + 1,
        minList ((laterHeaderIdxs blocks name).filterMap id) blocks.length)

/-- Concrete block builder for the example documents below. -/
def exBlock (i : Nat) (k : BlockKind) (t : String) (c : Bool) : Block :=
  { id := i, kind := k, text := t, checked := c, color := "default" }

/-- Example document of the spec's range-computation test: ordered headers
at indices Daily = 0, Today = 4, Backlog = 9, Tomorrow absent, length 11. -/
def exampleDoc : List Block :=
  [ exBlock 0 BlockKind.heading "Daily:" false,
    exBlock 1 BlockKind.todo "d1" true,
    exBlock 2 BlockKind.todo "d2" false,
    exBlock 3 BlockKind.paragraph "note" false,
    exBlock 4 BlockKind.heading "Today:" false,
    exBlock 5 BlockKind.todo "t1" false,
    exBlock 6 BlockKind.todo "t2" true,
    exBlock 7 BlockKind.paragraph "" false,
    exBlock 8 BlockKind.todo "t3" false,
    exBlock 9 BlockKind.heading "Backlog:" false,
    exBlock 10 BlockKind.todo "b1" false ]

/-- Document with a duplicated Today header (first at index 1, duplicate at
index 3). -/
def dupDoc : List Block :=
  [ exBlock 0 BlockKind.paragraph "intro" false,
    exBlock 1 BlockKind.heading "Today:" false,
    exBlock 2 BlockKind.todo "a" false,
    exBlock 3 BlockKind.heading "Today:" false ]

/-- Scenario B of the spec: Tomorrow holds one unchecked item C, Today is
empty, Backlog is empty. -/
def storeScenB : Store :=
  { doc := [ exBlock 0 BlockKind.heading "Today:" false,
             exBlock 1 BlockKind.heading "Tomorrow:" false,
             exBlock 2 BlockKind.todo "C" false,
             exBlock 3 BlockKind.heading "Backlog:" false ],
    nextId := 4 }

/-- One checked Daily item, so that the run attempts the cycle-outcome
write. -/
def storeDailyOne : Store :=
  { doc := [ exBlock 0 BlockKind.heading "Daily:" false,
             exBlock 1 BlockKind.todo "d" true,
             exBlock 2 BlockKind.heading "Today:" false,
             exBlock 3 BlockKind.heading "Backlog:" false ],
    nextId := 4 }

/-- Daily section with 3 items, 2 checked (the spec's Daily-scoring test). -/
def storeDaily23 : Store :=
  { doc := [ exBlock 0 BlockKind.heading "Daily:" false,
             exBlock 1 BlockKind.todo "d1" true,
             exBlock 2 BlockKind.todo "d2" false,
             exBlock 3 BlockKind.todo "d3" true,
             exBlock 4 BlockKind.heading "Today:" false,
             exBlock 5 BlockKind.heading "Backlog:" false ],
    nextId := 6 }

/-- Environment in which the Daily Completion write returns a non-ok HTTP
response (`create_page_in_db` raises SystemExit there). -/
def envDailyHttpErr : Env :=
  { dailyDb := true, doneDb := true, dailyWrite := .httpErr, doneWrite := .ok }

/-- Environment in which the Daily Completion write fails with an ordinary
transport exception. -/
def envDailyTransportErr : Env :=
  { dailyDb := true, doneDb := true, dailyWrite := .transportErr,
    doneWrite := .ok }

/-- Projection of the cycle-outcome records out of a trace. -/
def evCompletion : Event → Option String
  | .logCompletion s => some s
  | _ => none

/-- Structural mutations are insertions and deletions of blocks (checkbox
patches do not move indices). -/
def isMutationEvent : Event → Bool
  | .insertedAfter _ _ _ => true
  | .deleted _ => true
  | _ => false

/-- Scan of a trace: does some usedSlice event occur while a structural
mutation has happened since the last fetch?  The boolean argument carries
"mutated since last fetch". -/
def staleScan : List Event → Bool → Bool
  | [], _ => false
  | e :: rest, m =>
      match e with
      | .fetched _ => staleScan rest false
      | .usedSlice _ _ => m || staleScan rest m
      | _ => staleScan rest (m || isMutationEvent e)

/-- A trace violates the fetch-before-slicing discipline when a section
slice is bound after a structural mutation with no re-fetch in between. -/
def hasStaleSliceUse (tr : List Event) : Bool := staleScan tr false

/-! ### Application lemmas for the monadic phases -/

theorem M_bind_apply (x : M α) (f : α → M β) (rs : RS) :
    (x >>= f) rs =
      match x rs with
      | (rs', Except.ok a) => f a rs'
      | (rs', Except.error e) => (rs', Except.error e) := rfl

theorem M_pure_apply (a : α) (rs : RS) :
    (pure a : M α) rs = (rs, Except.ok a) := rfl

theorem M_ite_apply (c : Prop) [Decidable c] (x y : M α) (rs : RS) :
    (if c then x else y) rs = if c then x rs else y rs := by
  by_cases h : c <;> simp [h]

theorem dailyLoop_apply (l : List Block) (rs : RS) :
    dailyLoop l rs =
      ({ store := { doc := applyDailyReset l rs.store.doc,
                    nextId := rs.store.nextId },
         trace := rs.trace ++ dailyEvs l }, Except.ok ()) := by
  induction l generalizing rs with
  | nil =>
      simp [dailyLoop, applyDailyReset, dailyEvs, M.pure]
  | cons b rest ih =>
      by_cases h : b.kind == .todo
      · simp [dailyLoop, h, M_bind_apply, set_todo_checked, ih, applyDailyReset,
          dailyEvs, List.append_assoc]
      · simp [dailyLoop, h, M_bind_apply, M.pure, ih, applyDailyReset, dailyEvs]

theorem tryWarnDone_apply (env : Env) (h : env.doneWrite ≠ .httpErr)
    (txt : String) (rs : RS) :
    tryWarn (log_done_item env txt) "Failed to log Done item" rs =
      ({ rs with trace := rs.trace ++ doneEvs env txt }, Except.ok ()) := by
  unfold tryWarn log_done_item create_page_in_db doneEvs
  cases hdb : env.doneDb <;> cases hw : env.doneWrite <;>
    simp_all [emitM, raiseM, M.pure]

theorem tryWarnDaily_apply (env : Env) (h : env.dailyWrite ≠ .httpErr)
    (c t : Nat) (rs : RS) :
    tryWarn (log_daily_completion env c t) "Failed to write Daily Completion" rs =
      ({ rs with trace := rs.trace ++ dailyLogEvs env c t }, Except.ok ()) := by
  unfold tryWarn log_daily_completion create_page_in_db dailyLogEvs
  cases hdb : env.dailyDb <;> cases hw : env.dailyWrite <;>
    simp_all [emitM, raiseM, M.pure]

theorem tomorrowPlan_apply (env : Env) (h : env.doneWrite ≠ .httpErr)
    (l : List Block) (rs : RS) :
    tomorrowPlan env l rs =
      ({ rs with trace := rs.trace ++ planEvs env l },
       Except.ok (planClones l, planDeleteIds l)) := by
  induction l generalizing rs with
  | nil => simp [tomorrowPlan, planEvs, planClones, planDeleteIds, M.pure]
  | cons b rest ih =>
      by_cases hk : b.kind == .todo
      · by_cases hc : b.checked
        · simp [tomorrowPlan, hk, hc, M_bind_apply, tryWarnDone_apply env h, ih,
            M.pure, planEvs, planClones, planDeleteIds, List.append_assoc]
        · simp [tomorrowPlan, hk, hc, M_bind_apply, ih, M.pure, planEvs,
            planClones, planDeleteIds, clone_todo_block]
      · simp [tomorrowPlan, hk, M_bind_apply, ih, M.pure, planEvs, planClones,
          planDeleteIds]

theorem todayPlan_apply (env : Env) (h : env.doneWrite ≠ .httpErr)
    (l : List Block) (rs : RS) :
    todayPlan env l rs =
      ({ rs with trace := rs.trace ++ planEvs env l },
       Except.ok (planClones l, planDeleteIds l)) := by
  induction l generalizing rs with
  | nil => simp [todayPlan, planEvs, planClones, planDeleteIds, M.pure]
  | cons b rest ih =>
      by_cases hk : b.kind == .todo
      · by_cases hc : b.checked
        · simp [todayPlan, hk, hc, M_bind_apply, tryWarnDone_apply env h, ih,
            M.pure, planEvs, planClones, planDeleteIds, List.append_assoc]
        · simp [todayPlan, hk, hc, M_bind_apply, ih, M.pure, planEvs,
            planClones, planDeleteIds, clone_todo_block]
      · simp [todayPlan, hk, M_bind_apply, ih, M.pure, planEvs, planClones,
          planDeleteIds]

theorem backlogLoop_apply (env : Env) (h : env.doneWrite ≠ .httpErr)
    (l : List Block) (rs : RS) :
    backlogLoop env l rs =
      ({ store := { doc := deleteIds (bkDeleteIds l) rs.store.doc,
                    nextId := rs.store.nextId },
         trace := rs.trace ++ bkEvs env l }, Except.ok ()) := by
  induction l generalizing rs with
  | nil => simp [backlogLoop, bkDeleteIds, deleteIds, bkEvs, M.pure]
  | cons b rest ih =>
      by_cases hk : b.kind == .todo && b.checked
      · simp [backlogLoop, hk, M_bind_apply, tryWarnDone_apply env h,
          delete_block, ih, bkDeleteIds, deleteIds, bkEvs, List.append_assoc]
      · simp [backlogLoop, hk, M_bind_apply, M.pure, ih, bkDeleteIds,
          deleteIds, bkEvs]

theorem forM_delete_apply (ids : List Nat) (rs : RS) :
    (ids.forM delete_block) rs =
      ({ store := { doc := deleteIds ids rs.store.doc,
                    nextId := rs.store.nextId },
         trace := rs.trace ++ ids.map Event.deleted }, Except.ok ()) := by
  induction ids generalizing rs with
  | nil => simp [List.forM, deleteIds, M_pure_apply]
  | cons i rest ih =>
      simp [List.forM, M_bind_apply, delete_block, ih, deleteIds,
        List.append_assoc]

theorem remove_empty_paragraphs_apply (blocks : List Block) (s e : Nat) (rs : RS) :
    remove_empty_paragraphs_in_slice blocks s e rs =
      ({ store := { doc := deleteIds
                      (((pySlice blocks s e).filter is_empty_paragraph).map Block.id)
                      rs.store.doc,
                    nextId := rs.store.nextId },
         trace := rs.trace ++
           (((pySlice blocks s e).filter is_empty_paragraph).map Block.id).map
             Event.deleted }, Except.ok ()) := by
  simp [remove_empty_paragraphs_in_slice, forM_delete_apply]

theorem ensurePlaceholder_apply (ba : List Block) (sl : List Block)
    (sec : String) (rs : RS) :
    ensurePlaceholder ba sl sec rs =
      ({ store := placeholderStore ba sl sec rs.store,
         trace := rs.trace ++ placeholderEvs ba sl sec rs.store },
       Except.ok ()) := by
  unfold ensurePlaceholder placeholderStore placeholderEvs
  by_cases h : sl.any (fun b => b.kind == .todo)
  · simp [h, M.pure]
  · cases hh : section_header_id ba sec <;>
      simp [h, hh, M.pure, append_blocks_after]

set_option maxHeartbeats 3200000 in
/-- Normal form of a complete run: when the Today and Backlog headers are
present and no log write returns a non-ok HTTP response, the run succeeds
and produces exactly the pipeline store and trace. -/
theorem runCleanup_nf (env : Env) (s : Store) (th bh : Nat)
    (hth : section_header_id s.doc "today" = some th)
    (hbh : section_header_id s.doc "backlog" = some bh)
    (hD : env.dailyWrite ≠ .httpErr) (hN : env.doneWrite ≠ .httpErr) :
    runCleanup env s =
      ({ store := storeFinOf s, trace := traceNF env s }, Except.ok ()) := by
  unfold runCleanup cleanup_todo_page
  simp only [M_bind_apply, M_ite_apply, M_pure_apply, get_all_children,
    emitM, dailyLoop_apply, tryWarnDaily_apply env hD,
    tomorrowPlan_apply env hN, todayPlan_apply env hN,
    backlogLoop_apply env hN, forM_delete_apply,
    remove_empty_paragraphs_apply, ensurePlaceholder_apply,
    append_blocks_after, requireSome, M.pure, hth, hbh]
  split_ifs <;>
    simp_all [traceNF, storeFinOf, store9Of, store8Of, store7Of, parts7Of,
      doc7Of, repDelOf, repSliceOf, repRangeOf, doc6Of, n2Of, doc5Of, ins2Of,
      bh2Of, tDelOf, tClOf, doc4Of, bkDelOf, doc3Of, n1Of, doc2Of, ins1Of,
      mDelOf, mClOf, doc1Of, statsOf, thOf, bhOf, partsOf, hth, hbh,
      pySlice, deleteIds, Nat.not_lt, Nat.sub_eq_zero_of_le,
      List.append_assoc]

/-! ### Pure lemmas: slices, first indices, deletion, insertion -/

theorem minList_le {l : List Nat} {x : Nat} (hx : x ∈ l) (d : Nat) :
    minList l d ≤ x := by
  match l with
  | [] => cases hx
  | y :: ys =>
    have aux : ∀ (zs : List Nat) (a : Nat),
        zs.foldl Nat.min a ≤ a ∧ ∀ z ∈ zs, zs.foldl Nat.min a ≤ z := by
      intro zs
      induction zs with
      | nil => intro a; exact ⟨Nat.le_refl a, by intro z hz; cases hz⟩
      | cons w ws ih =>
          intro a
          refine ⟨?_, ?_⟩
          · exact Nat.le_trans (ih (Nat.min a w)).1 (Nat.min_le_left a w)
          · intro z hz
            rcases List.mem_cons.mp hz with h | h
            · subst h
              exact Nat.le_trans (ih (Nat.min a z)).1 (Nat.min_le_right a z)
            · exact (ih (Nat.min a w)).2 z h
    rcases List.mem_cons.mp hx with h | h
    · subst h; exact (aux ys x).1
    · exact (aux ys y).2 x h

theorem pySlice_subset {l : List Block} {s e : Nat} : pySlice l s e ⊆ l := by
  intro b hb
  exact List.drop_subset s l (List.take_subset _ _ hb)

theorem exists_index_of_mem_pySlice {l : List Block} {s e : Nat} {b : Block}
    (h : b ∈ pySlice l s e) :
    ∃ i, s ≤ i ∧ i < e ∧ ∃ hi : i < l.length, l.get ⟨i, hi⟩ = b := by
  unfold pySlice at h
  rcases List.mem_iff_getElem.mp h with ⟨j, hj, hgb⟩
  have hj1 : j < e - s := by
    have := hj
    simp [List.length_take, List.length_drop] at this
    exact this.1
  have hj2 : j < (l.drop s).length := by
    have := hj
    simp [List.length_take, List.length_drop] at this
    simp [List.length_drop]
    exact this.2
  have hjl : s + j < l.length := by
    have := hj2
    simp [List.length_drop] at this
    omega
  refine ⟨s + j, Nat.le_add_right s j, by omega, hjl, ?_⟩
  have h1 : (l.take (e - s) ++ l.drop (e-s)) = l := List.take_append_drop _ l
  have : ((l.drop s).take (e - s))[j] = getElem (l.drop s) j hj2 := List.getElem_take _
  rw [this] at hgb
  have : getElem (l.drop s) j hj2 = getElem l (s + j) hjl := List.getElem_drop _
  rw [this] at hgb
  simpa [List.get_eq_getElem] using hgb

theorem mem_pySlice_of_index {l : List Block} {s e i : Nat} (h1 : s ≤ i)
    (h2 : i < e) (hi : i < l.length) : l.get ⟨i, hi⟩ ∈ pySlice l s e := by
  unfold pySlice
  have hd : i - s < (l.drop s).length := by simp [List.length_drop]; omega
  have he : i - s < e - s := by omega
  have : getElem (l.drop s) (i - s) hd = getElem l (s + (i - s)) (by omega) := List.getElem_drop _
  have hval : getElem (l.drop s) (i - s) hd = l.get ⟨i, hi⟩ := by
    rw [this]; simp [List.get_eq_getElem]; congr 1; omega
  have hmem : getElem ((l.drop s).take (e - s)) (i - s) (by
      simp [List.length_take, List.length_drop]; omega) = getElem (l.drop s) (i - s) hd :=
    List.getElem_take _
  rw [← hval, ← hmem]
  exact List.getElem_mem _

theorem pySlice_all {l : List Block} : pySlice l 0 l.length = l := by
  simp [pySlice]

theorem findFirstIdx_spec {p : Block → Bool} :
    ∀ {l : List Block} {i : Nat}, findFirstIdx p l = some i →
      ∃ hi : i < l.length, p (l.get ⟨i, hi⟩) = true
        ∧ ∀ j (hj : j < l.length), j < i → p (l.get ⟨j, hj⟩) = false := by
  intro l
  induction l with
  | nil => intro i h; simp [findFirstIdx] at h
  | cons b rest ih =>
      intro i h
      by_cases hb : p b
      · simp [findFirstIdx, hb] at h
        subst h
        exact ⟨by simp, by simpa using hb, by intro j hj hji; omega⟩
      · simp [findFirstIdx, hb] at h
        rcases h with ⟨k, hk, hki⟩
        rcases ih hk with ⟨hklen, hpk, hleast⟩
        refine ⟨by simp; omega, ?_, ?_⟩
        · have : (b :: rest).get ⟨i, by simp; omega⟩ = rest.get ⟨k, hklen⟩ := by
            subst hki; simp [List.get_eq_getElem]
          rw [this]; exact hpk
        · intro j hj hji
          match j with
          | 0 => simpa using hb
          | j+1 =>
              have hjr : j < rest.length := by simp at hj; omega
              have : (b :: rest).get ⟨j+1, hj⟩ = rest.get ⟨j, hjr⟩ := by
                simp [List.get_eq_getElem]
              rw [this]
              exact hleast j hjr (by omega)

theorem findFirstIdx_none {p : Block → Bool} :
    ∀ {l : List Block}, findFirstIdx p l = none → ∀ b ∈ l, p b = false := by
  intro l
  induction l with
  | nil => intro _ b hb; cases hb
  | cons x rest ih =>
      intro h b hb
      by_cases hx : p x
      · simp [findFirstIdx, hx] at h
      · simp [findFirstIdx, hx] at h
        rcases List.mem_cons.mp hb with hbx | hbr
        · subst hbx; simpa using hx
        · exact ih h b hbr

theorem find?_eq_of_findFirstIdx {p : Block → Bool} :
    ∀ {l : List Block} {i : Nat}, findFirstIdx p l = some i →
      ∃ hi : i < l.length, l.find? p = some (l.get ⟨i, hi⟩) := by
  intro l
  induction l with
  | nil => intro i h; simp [findFirstIdx] at h
  | cons b rest ih =>
      intro i h
      by_cases hb : p b
      · simp [findFirstIdx, hb] at h
        subst h
        exact ⟨by simp, by simp [List.find?, hb]⟩
      · simp [findFirstIdx, hb] at h
        rcases h with ⟨k, hk, hki⟩
        rcases ih hk with ⟨hklen, hfind⟩
        refine ⟨by simp; omega, ?_⟩
        subst hki
        simpa [List.find?, hb, List.get_eq_getElem] using hfind

theorem find?_none_of_findFirstIdx_none {p : Block → Bool} :
    ∀ {l : List Block}, findFirstIdx p l = none → l.find? p = none := by
  intro l
  induction l with
  | nil => intro _; rfl
  | cons b rest ih =>
      intro h
      by_cases hb : p b
      · simp [findFirstIdx, hb] at h
      · simp [findFirstIdx, hb] at h
        simp [List.find?, hb, ih h]

theorem deleteIds_eq_filter :
    ∀ (ids : List Nat) (doc : List Block),
      deleteIds ids doc = doc.filter (fun b => !(ids.contains b.id)) := by
  intro ids
  induction ids with
  | nil => intro doc; simp [deleteIds]
  | cons i rest ih =>
      intro doc
      rw [deleteIds, ih, deleteDoc, List.filter_filter]
      congr 1
      funext b
      by_cases hbi : b.id = i <;> simp [hbi]

theorem deleteIds_sublist (ids : List Nat) (doc : List Block) :
    List.Sublist (deleteIds ids doc) doc := by
  rw [deleteIds_eq_filter]; exact List.filter_sublist doc

theorem deleteIds_subset (ids : List Nat) (doc : List Block) :
    deleteIds ids doc ⊆ doc := (deleteIds_sublist ids doc).subset

theorem mem_deleteIds_iff {ids : List Nat} {doc : List Block} {b : Block} :
    b ∈ deleteIds ids doc ↔ b ∈ doc ∧ ¬ b.id ∈ ids := by
  rw [deleteIds_eq_filter]
  simp [List.mem_filter]

theorem mem_insertAfterDoc_of_mem {doc : List Block} {a : Nat}
    {news : List Block} {b : Block} (h : b ∈ doc) :
    b ∈ insertAfterDoc doc a news := by
  induction doc with
  | nil => cases h
  | cons x rest ih =>
      rw [insertAfterDoc]
      by_cases hx : x.id = a
      · simp [hx]
        rcases List.mem_cons.mp h with h1 | h1
        · exact Or.inl h1
        · exact Or.inr (Or.inr h1)
      · simp [hx]
        rcases List.mem_cons.mp h with h1 | h1
        · exact Or.inl h1
        · exact Or.inr (ih h1)

theorem mem_of_mem_insertAfterDoc {doc : List Block} {a : Nat}
    {news : List Block} {b : Block} (h : b ∈ insertAfterDoc doc a news) :
    b ∈ doc ∨ b ∈ news := by
  induction doc with
  | nil => simp [insertAfterDoc] at h
  | cons x rest ih =>
      rw [insertAfterDoc] at h
      by_cases hx : x.id = a
      · simp [hx] at h
        rcases h with h1 | h1 | h1
        · exact Or.inl (by simp [h1])
        · exact Or.inr h1
        · exact Or.inl (List.mem_cons_of_mem x h1)
      · simp [hx] at h
        rcases h with h1 | h1
        · exact Or.inl (by simp [h1])
        · rcases ih h1 with h2 | h2
          · exact Or.inl (List.mem_cons_of_mem x h2)
          · exact Or.inr h2

theorem insertAfterDoc_split {u : List Block} {hdr : Block} {v : List Block}
    {a : Nat} (news : List Block) (hid : hdr.id = a)
    (hu : ∀ x ∈ u, x.id ≠ a) :
    insertAfterDoc (u ++ hdr :: v) a news = u ++ hdr :: (news ++ v) := by
  induction u with
  | nil => simp [insertAfterDoc, hid]
  | cons x rest ih =>
      have hx : x.id ≠ a := hu x (by simp)
      show insertAfterDoc (x :: (rest ++ hdr :: v)) a news
          = x :: (rest ++ hdr :: (news ++ v))
      rw [insertAfterDoc, if_neg hx,
        ih (fun y hy => hu y (List.mem_cons_of_mem x hy))]

theorem assignIds_map_id :
    ∀ (n : Nat) (l : List NewBlock),
      (assignIds n l).map Block.id = List.range' n l.length := by
  intro n l
  induction l generalizing n with
  | nil => simp [assignIds]
  | cons nb rest ih => simp [assignIds, List.range', ih]

theorem assignIds_length (n : Nat) (l : List NewBlock) :
    (assignIds n l).length = l.length := by
  have := congrArg List.length (assignIds_map_id n l)
  simpa using this

theorem mem_assignIds_le {n : Nat} {l : List NewBlock} {z : Block}
    (h : z ∈ assignIds n l) : n ≤ z.id := by
  have : z.id ∈ (assignIds n l).map Block.id := List.mem_map_of_mem Block.id h
  rw [assignIds_map_id] at this
  rcases List.mem_range'.mp this with ⟨i, _, hz⟩
  omega

theorem mem_assignIds_lt {n : Nat} {l : List NewBlock} {z : Block}
    (h : z ∈ assignIds n l) : z.id < n + l.length := by
  have : z.id ∈ (assignIds n l).map Block.id := List.mem_map_of_mem Block.id h
  rw [assignIds_map_id] at this
  rcases List.mem_range'.mp this with ⟨i, hi, hz⟩
  omega

theorem mem_assignIds_kind {n : Nat} {l : List NewBlock} {z : Block}
    (h : z ∈ assignIds n l) (hk : ∀ nb ∈ l, nb.kind = BlockKind.todo) :
    z.kind = BlockKind.todo := by
  induction l generalizing n with
  | nil => simp [assignIds] at h
  | cons nb rest ih =>
      rw [assignIds] at h
      rcases List.mem_cons.mp h with h1 | h1
      · subst h1; exact hk nb (by simp)
      · exact ih h1 (by intro x hx; exact hk x (List.mem_cons_of_mem nb hx))


theorem applyDailyReset_eq_map :
    ∀ (l : List Block) (doc : List Block),
      applyDailyReset l doc = doc.map (resetFun (planDeleteIds l)) := by
  intro l
  induction l with
  | nil =>
      intro doc
      rw [applyDailyReset]
      have h0 : planDeleteIds ([] : List Block) = [] := by simp [planDeleteIds]
      rw [h0]
      have hz : ∀ z ∈ doc, z = resetFun [] z := by
        intro z _; simp [resetFun]
      exact (List.map_id doc).symm.trans (List.map_congr_left hz).symm
  | cons b rest ih =>
      intro doc
      by_cases hb : b.kind == BlockKind.todo
      · rw [applyDailyReset, if_pos hb, ih, setCheckedDoc, List.map_map]
        have hplan : planDeleteIds (b :: rest) = b.id :: planDeleteIds rest := by
          simp [planDeleteIds, List.filter_cons, hb]
        rw [hplan]
        congr 1
        funext z
        by_cases hz : z.id = b.id <;>
          simp [Function.comp, resetFun, hz, List.contains_cons]
      · rw [applyDailyReset, if_neg hb, ih]
        have hplan : planDeleteIds (b :: rest) = planDeleteIds rest := by
          simp [planDeleteIds, List.filter_cons, hb]
        rw [hplan]

theorem resetFun_fields (ids : List Nat) (z : Block) :
    (resetFun ids z).id = z.id ∧ (resetFun ids z).kind = z.kind
      ∧ (resetFun ids z).text = z.text ∧ (resetFun ids z).color = z.color := by
  unfold resetFun
  by_cases h : z.id ∈ ids <;> simp [h]

theorem resetFun_not_mem {ids : List Nat} {z : Block}
    (h : ¬ z.id ∈ ids) : resetFun ids z = z := by
  simp [resetFun, h]

theorem resetFun_idem (ids : List Nat) (z : Block) :
    resetFun ids (resetFun ids z) = resetFun ids z := by
  unfold resetFun
  by_cases h : z.id ∈ ids <;> simp [h]

theorem applyDailyReset_idem (l doc : List Block) :
    applyDailyReset l (applyDailyReset l doc) = applyDailyReset l doc := by
  rw [applyDailyReset_eq_map, applyDailyReset_eq_map, List.map_map]
  exact List.map_congr_left fun z _ => resetFun_idem _ z

theorem mem_planDeleteIds {l : List Block} {i : Nat} :
    i ∈ planDeleteIds l ↔ ∃ z ∈ l, z.kind = BlockKind.todo ∧ z.id = i := by
  simp [planDeleteIds, List.mem_map, List.mem_filter]
  constructor
  · rintro ⟨z, ⟨hz, hk⟩, hid⟩
    exact ⟨z, hz, by simpa using hk, hid⟩
  · rintro ⟨z, hz, hk, hid⟩
    exact ⟨z, ⟨hz, by simpa using hk⟩, hid⟩

theorem mem_bkDeleteIds {l : List Block} {i : Nat} :
    i ∈ bkDeleteIds l ↔
      ∃ z ∈ l, (z.kind = BlockKind.todo ∧ z.checked = true) ∧ z.id = i := by
  simp [bkDeleteIds, List.mem_map, List.mem_filter]
  constructor
  · rintro ⟨z, ⟨hz, hk⟩, hid⟩
    refine ⟨z, hz, ⟨?_, ?_⟩, hid⟩ <;> simp_all
  · rintro ⟨z, hz, ⟨hk, hc⟩, hid⟩
    exact ⟨z, ⟨hz, by simp [hk, hc]⟩, hid⟩

theorem mem_planClones {l : List Block} {nb : NewBlock} :
    nb ∈ planClones l ↔
      ∃ z ∈ l, (z.kind = BlockKind.todo ∧ z.checked = false)
        ∧ nb = clone_todo_block z := by
  simp [planClones, List.mem_map, List.mem_filter]
  constructor
  · rintro ⟨z, ⟨hz, hk⟩, hid⟩
    refine ⟨z, hz, ⟨?_, ?_⟩, hid.symm⟩ <;> simp_all
  · rintro ⟨z, hz, ⟨hk, hc⟩, hid⟩
    exact ⟨z, ⟨hz, by simp [hk, hc]⟩, hid.symm⟩

theorem planClones_kind {l : List Block} {nb : NewBlock}
    (h : nb ∈ planClones l) : nb.kind = BlockKind.todo := by
  rcases mem_planClones.mp h with ⟨z, _, _, hnb⟩
  simp [hnb, clone_todo_block]

/-- Uniqueness of blocks by id in a list with no duplicate ids. -/
theorem eq_of_mem_of_id_eq {blocks : List Block}
    (hnd : (blocks.map Block.id).Nodup) {x y : Block}
    (hx : x ∈ blocks) (hy : y ∈ blocks) (hxy : x.id = y.id) : x = y := by
  rcases List.mem_iff_getElem.mp hx with ⟨i, hi, hix⟩
  rcases List.mem_iff_getElem.mp hy with ⟨j, hj, hjy⟩
  have hinj := List.nodup_iff_injective_getElem.mp hnd
  have hmi : i < (blocks.map Block.id).length := by simpa using hi
  have hmj : j < (blocks.map Block.id).length := by simpa using hj
  have hval : (fun k : Fin (blocks.map Block.id).length =>
        (blocks.map Block.id)[(k : Nat)]) ⟨i, hmi⟩
      = (fun k : Fin (blocks.map Block.id).length =>
        (blocks.map Block.id)[(k : Nat)]) ⟨j, hmj⟩ := by
    simp [List.getElem_map, hix, hjy, hxy]
  have hij : i = j := by simpa using hinj hval
  subst hij
  rw [← hix, ← hjy]


theorem idsOK_mono {n m : Nat} {doc : List Block} (h : n ≤ m)
    (hd : IdsOK n doc) : IdsOK m doc :=
  ⟨hd.1, fun z hz => Nat.lt_of_lt_of_le (hd.2 z hz) h⟩

theorem idsOK_map_reset {n : Nat} {doc : List Block} (ids : List Nat)
    (hd : IdsOK n doc) : IdsOK n (doc.map (resetFun ids)) := by
  constructor
  · have : (doc.map (resetFun ids)).map Block.id = doc.map Block.id := by
      rw [List.map_map]
      exact List.map_congr_left fun z _ => (resetFun_fields ids z).1
    rw [this]; exact hd.1
  · intro z hz
    rcases List.mem_map.mp hz with ⟨w, hw, hwz⟩
    rw [← hwz, (resetFun_fields ids w).1]
    exact hd.2 w hw

theorem idsOK_sublist {n : Nat} {doc doc2 : List Block}
    (hsub : List.Sublist doc2 doc) (hd : IdsOK n doc) : IdsOK n doc2 :=
  ⟨(hsub.map Block.id).nodup hd.1, fun z hz => hd.2 z (hsub.subset hz)⟩

theorem idsOK_deleteIds {n : Nat} {doc : List Block} (ids : List Nat)
    (hd : IdsOK n doc) : IdsOK n (deleteIds ids doc) :=
  idsOK_sublist (deleteIds_sublist ids doc) hd

theorem idsOK_insertAfter {n : Nat} {doc : List Block} (a : Nat)
    (l : List NewBlock) (hd : IdsOK n doc) :
    IdsOK (n + l.length) (insertAfterDoc doc a (assignIds n l)) := by
  induction doc with
  | nil => exact ⟨by simp [insertAfterDoc], by simp [insertAfterDoc]⟩
  | cons x rest ih =>
      have hx : x.id < n := hd.2 x (by simp)
      have hrest : IdsOK n rest := by
        refine ⟨?_, fun z hz => hd.2 z (List.mem_cons_of_mem x hz)⟩
        have := hd.1
        simp [List.nodup_cons] at this
        exact this.2
      have hxrest : ¬ x.id ∈ rest.map Block.id := by
        have := hd.1
        simp [List.nodup_cons] at this
        intro hmem
        rcases List.mem_map.mp hmem with ⟨z, hz, hzx⟩
        exact absurd (hzx ▸ rfl : z.id = x.id).symm (by
          intro hcontr
          exact (List.nodup_cons.mp hd.1).1 (by
            rw [hcontr]
            exact List.mem_map_of_mem Block.id hz))
      rw [insertAfterDoc]
      by_cases hxa : x.id = a
      · rw [if_pos hxa]
        constructor
        · simp only [List.map_cons, List.map_append, List.nodup_cons]
          constructor
          · intro hmem
            rcases List.mem_append.mp hmem with hmem | hmem
            · rw [assignIds_map_id] at hmem
              rcases List.mem_range'.mp hmem with ⟨i, _, hxi⟩
              omega
            · exact absurd hmem hxrest
          · rw [List.nodup_append]
            refine ⟨?_, ?_, ?_⟩
            · rw [assignIds_map_id]; exact List.nodup_range' _ _
            · exact hrest.1
            · intro y hy hy2
              rw [assignIds_map_id] at hy
              rcases List.mem_range'.mp hy with ⟨i, _, hyi⟩
              rcases List.mem_map.mp hy2 with ⟨z, hz, hzy⟩
              have := hrest.2 z hz
              omega
        · intro z hz
          rcases List.mem_cons.mp hz with hz1 | hz1
          · subst hz1; omega
          · rcases List.mem_append.mp hz1 with hz2 | hz2
            · exact mem_assignIds_lt hz2
            · have := hrest.2 z hz2; omega
      · rw [if_neg hxa]
        have hrec := ih hrest
        constructor
        · simp only [List.map_cons, List.nodup_cons]
          refine ⟨?_, hrec.1⟩
          intro hmem
          rcases List.mem_map.mp hmem with ⟨z, hz, hzx⟩
          rcases mem_of_mem_insertAfterDoc hz with hz1 | hz1
          · exact hxrest (hzx ▸ List.mem_map_of_mem Block.id hz1)
          · have := mem_assignIds_le hz1
            omega
        · intro z hz
          rcases List.mem_cons.mp hz with hz1 | hz1
          · subst hz1; omega
          · exact hrec.2 z hz1


theorem origOK_base {B : List Block} {n0 : Nat}
    (h : ∀ z ∈ B, z.id < n0) : OrigOK B n0 B := by
  intro z hz
  exact ⟨fun _ => ⟨z, hz, rfl, rfl, rfl⟩, fun hn => absurd (h z hz) (by omega)⟩

theorem origOK_of_subset {B : List Block} {n0 : Nat} {doc doc2 : List Block}
    (hsub : doc2 ⊆ doc) (h : OrigOK B n0 doc) : OrigOK B n0 doc2 :=
  fun z hz => h z (hsub hz)

theorem origOK_map_reset {B : List Block} {n0 : Nat} {doc : List Block}
    (ids : List Nat) (h : OrigOK B n0 doc) :
    OrigOK B n0 (doc.map (resetFun ids)) := by
  intro z hz
  rcases List.mem_map.mp hz with ⟨w, hw, hwz⟩
  rcases resetFun_fields ids w with ⟨h1, h2, h3, _⟩
  rw [← hwz, h1, h2, h3]
  exact h w hw

theorem origOK_insertAfter {B : List Block} {n0 n : Nat} {doc : List Block}
    (a : Nat) (l : List NewBlock) (hk : ∀ nb ∈ l, nb.kind = BlockKind.todo)
    (hn : n0 ≤ n) (h : OrigOK B n0 doc) :
    OrigOK B n0 (insertAfterDoc doc a (assignIds n l)) := by
  intro z hz
  rcases mem_of_mem_insertAfterDoc hz with h1 | h1
  · exact h z h1
  · have hzn : n ≤ z.id := mem_assignIds_le h1
    have hzk : z.kind = BlockKind.todo := mem_assignIds_kind h1 hk
    exact ⟨fun hlt => absurd hlt (by omega), fun _ => hzk⟩


theorem origIds_map_reset (n0 : Nat) (ids : List Nat) (doc : List Block) :
    origIds n0 (doc.map (resetFun ids)) = origIds n0 doc := by
  unfold origIds
  rw [List.map_map]
  congr 1
  exact List.map_congr_left fun z _ => (resetFun_fields ids z).1

theorem origIds_deleteIds (n0 : Nat) (ids : List Nat) (doc : List Block) :
    List.Sublist (origIds n0 (deleteIds ids doc)) (origIds n0 doc) :=
  ((deleteIds_sublist ids doc).map Block.id).filter _

theorem origIds_insertAfter (n0 : Nat) {n : Nat} (a : Nat)
    (l : List NewBlock) (doc : List Block) (hn : n0 ≤ n) :
    origIds n0 (insertAfterDoc doc a (assignIds n l)) = origIds n0 doc := by
  induction doc with
  | nil => simp [insertAfterDoc]
  | cons x rest ih =>
      rw [insertAfterDoc]
      by_cases hxa : x.id = a
      · rw [if_pos hxa]
        unfold origIds
        simp only [List.map_cons, List.map_append, List.filter_cons,
          List.filter_append]
        have hnews : ((assignIds n l).map Block.id).filter
            (fun i => decide (i < n0)) = [] := by
          rw [List.filter_eq_nil_iff]
          intro i hi
          rw [assignIds_map_id] at hi
          rcases List.mem_range'.mp hi with ⟨k, _, hik⟩
          simp
          omega
        rw [hnews]
        simp
      · rw [if_neg hxa]
        unfold origIds
        simp only [List.map_cons, List.filter_cons]
        unfold origIds at ih
        by_cases hx0 : x.id < n0 <;> simp [hx0, ih]

/-- Two blocks listed in order, both with original ids, occur in that order
in the original-id projection. -/
theorem pair_in_origIds {doc : List Block} {x y : Block} {p q : List Block}
    {n0 : Nat} (hsplit : doc = p ++ x :: q) (hy : y ∈ q)
    (hx0 : x.id < n0) (hy0 : y.id < n0) :
    List.Sublist [x.id, y.id] (origIds n0 doc) := by
  subst hsplit
  unfold origIds
  simp only [List.map_append, List.map_cons, List.filter_append,
    List.filter_cons]
  have hx' : decide (x.id < n0) = true := by simp [hx0]
  rw [hx']
  simp only [if_pos]
  have hyin : y.id ∈ (q.map Block.id).filter (fun i => decide (i < n0)) := by
    rw [List.mem_filter]
    exact ⟨List.mem_map_of_mem Block.id hy, by simp [hy0]⟩
  have h1 : List.Sublist [x.id, y.id]
      (x.id :: (q.map Block.id).filter (fun i => decide (i < n0))) := by
    exact List.Sublist.cons₂ x.id (List.singleton_sublist.mpr hyin)
  exact h1.trans (List.sublist_append_right _ _)

/-- Positions of the two elements of an ordered-pair sublist. -/
theorem pair_sublist_index {a b : Nat} :
    ∀ {l : List Nat}, List.Sublist [a, b] l →
      ∃ i j, i < j ∧ ∃ hj : j < l.length, ∃ hi : i < l.length,
        l.get ⟨i, hi⟩ = a ∧ l.get ⟨j, hj⟩ = b := by
  intro l
  induction l with
  | nil => intro h; cases h
  | cons x rest ih =>
      intro h
      cases h with
      | cons _ h1 =>
          rcases ih h1 with ⟨i, j, hij, hj, hi, ha, hb⟩
          exact ⟨i+1, j+1, by omega, by simp; omega, by simp; omega,
            by simpa using ha, by simpa using hb⟩
      | cons₂ _ h1 =>
          have hbmem : b ∈ rest := List.singleton_sublist.mp h1
          rcases List.mem_iff_getElem.mp hbmem with ⟨j, hj, hjb⟩
          exact ⟨0, j+1, by omega, by simp; omega, by simp,
            by simp [List.get_eq_getElem], by simpa [List.get_eq_getElem]⟩

theorem index_unique {blocks : List Block}
    (hnd : (blocks.map Block.id).Nodup) {i j : Nat} (hi : i < blocks.length)
    (hj : j < blocks.length)
    (h : blocks.get ⟨i, hi⟩ = blocks.get ⟨j, hj⟩) : i = j := by
  have hinj := List.nodup_iff_injective_getElem.mp hnd
  have hmi : i < (blocks.map Block.id).length := by simpa using hi
  have hmj : j < (blocks.map Block.id).length := by simpa using hj
  have hval : (fun k : Fin (blocks.map Block.id).length =>
        (blocks.map Block.id)[(k : Nat)]) ⟨i, hmi⟩
      = (fun k : Fin (blocks.map Block.id).length =>
        (blocks.map Block.id)[(k : Nat)]) ⟨j, hmj⟩ := by
    simp only [List.getElem_map]
    simp [List.get_eq_getElem] at h
    rw [h]
  simpa using hinj hval

theorem mem_drop_of_index {l : List Block} {k j : Nat} (hj : j < l.length)
    (hkj : k ≤ j) : l.get ⟨j, hj⟩ ∈ l.drop k := by
  have hd : j - k < (l.drop k).length := by simp [List.length_drop]; omega
  have : getElem (l.drop k) (j - k) hd = getElem l (k + (j - k)) (by omega) := List.getElem_drop _
  have hval : getElem (l.drop k) (j - k) hd = l.get ⟨j, hj⟩ := by
    rw [this]; simp [List.get_eq_getElem]; congr 1; omega
  rw [← hval]
  exact List.getElem_mem _

theorem is_header_kind {b : Block} {ts : List String}
    (h : is_header_with_text b ts = true) :
    b.kind = BlockKind.heading ∨ b.kind = BlockKind.paragraph := by
  unfold is_header_with_text at h
  by_cases hk : (b.kind == BlockKind.heading || b.kind == BlockKind.paragraph)
  · rcases Bool.or_eq_true_iff.mp hk with h1 | h1
    · exact Or.inl (by simpa using h1)
    · exact Or.inr (by simpa using h1)
  · rw [if_neg hk] at h; cases h

theorem is_header_congr {b b2 : Block} (hk : b2.kind = b.kind)
    (ht : b2.text = b.text) (ts : List String) :
    is_header_with_text b2 ts = is_header_with_text b ts := by
  unfold is_header_with_text rich_text_to_plain
  rw [hk, ht]

/-- Membership in the Daily slice of the partition, with its index bounds:
strictly after the Daily header and strictly before every present header of
the other three sections. -/
theorem mem_daily_index {blocks : List Block} {b : Block}
    (h : b ∈ (partition_by_sections blocks).daily) :
    ∃ d, headerIdx blocks "Daily" = some d ∧
      ∃ i, d + 1 ≤ i
        ∧ (∀ t, headerIdx blocks "Today" = some t → i < t)
        ∧ (∀ g, headerIdx blocks "Tomorrow" = some g → i < g)
        ∧ (∀ k, headerIdx blocks "Backlog" = some k → i < k)
        ∧ ∃ hi : i < blocks.length, blocks.get ⟨i, hi⟩ = b := by
  unfold partition_by_sections at h
  simp only at h
  cases hd : headerIdx blocks "Daily" with
  | none => rw [hd] at h; cases h
  | some d =>
      rw [hd] at h
      rcases exists_index_of_mem_pySlice h with ⟨i, hi1, hi2, hi3, hi4⟩
      refine ⟨d, rfl, i, hi1, ?_, ?_, ?_, hi3, hi4⟩
      · intro t ht
        have hmem : t ∈ ([headerIdx blocks "Today", headerIdx blocks "Tomorrow",
            headerIdx blocks "Backlog"].filterMap id) := by
          simp [ht]
        exact Nat.lt_of_lt_of_le hi2 (minList_le hmem _)
      · intro g hg
        have hmem : g ∈ ([headerIdx blocks "Today", headerIdx blocks "Tomorrow",
            headerIdx blocks "Backlog"].filterMap id) := by
          simp [hg]
        exact Nat.lt_of_lt_of_le hi2 (minList_le hmem _)
      · intro k hk
        have hmem : k ∈ ([headerIdx blocks "Today", headerIdx blocks "Tomorrow",
            headerIdx blocks "Backlog"].filterMap id) := by
          simp [hk]
        exact Nat.lt_of_lt_of_le hi2 (minList_le hmem _)

theorem mem_today_index {blocks : List Block} {b : Block}
    (h : b ∈ (partition_by_sections blocks).today) :
    ∃ t, headerIdx blocks "Today" = some t ∧
      ∃ i, t + 1 ≤ i ∧ ∃ hi : i < blocks.length, blocks.get ⟨i, hi⟩ = b := by
  unfold partition_by_sections at h
  simp only at h
  cases ht : headerIdx blocks "Today" with
  | none => rw [ht] at h; cases h
  | some t =>
      rw [ht] at h
      rcases exists_index_of_mem_pySlice h with ⟨i, hi1, _, hi3, hi4⟩
      exact ⟨t, rfl, i, hi1, hi3, hi4⟩

theorem mem_tomorrow_index {blocks : List Block} {b : Block}
    (h : b ∈ (partition_by_sections blocks).tomorrow) :
    ∃ g, headerIdx blocks "Tomorrow" = some g ∧
      ∃ i, g + 1 ≤ i ∧ ∃ hi : i < blocks.length, blocks.get ⟨i, hi⟩ = b := by
  unfold partition_by_sections at h
  simp only at h
  cases hg : headerIdx blocks "Tomorrow" with
  | none => rw [hg] at h; cases h
  | some g =>
      rw [hg] at h
      rcases exists_index_of_mem_pySlice h with ⟨i, hi1, _, hi3, hi4⟩
      exact ⟨g, rfl, i, hi1, hi3, hi4⟩

theorem mem_backlog_index {blocks : List Block} {b : Block}
    (h : b ∈ (partition_by_sections blocks).backlog) :
    ∃ k, headerIdx blocks "Backlog" = some k ∧
      ∃ i, k + 1 ≤ i ∧ ∃ hi : i < blocks.length, blocks.get ⟨i, hi⟩ = b := by
  unfold partition_by_sections at h
  simp only at h
  cases hk : headerIdx blocks "Backlog" with
  | none => rw [hk] at h; cases h
  | some k =>
      rw [hk] at h
      rcases exists_index_of_mem_pySlice h with ⟨i, hi1, _, hi3, hi4⟩
      exact ⟨k, rfl, i, hi1, hi3, hi4⟩

/-- The Daily slice is disjoint from the other three section slices (its
range ends at the minimum of their header indices). -/
theorem daily_slice_disjoint {blocks : List Block} {b : Block}
    (hnd : (blocks.map Block.id).Nodup)
    (hb : b ∈ (partition_by_sections blocks).daily) :
    ¬ b ∈ (partition_by_sections blocks).today
      ∧ ¬ b ∈ (partition_by_sections blocks).tomorrow
      ∧ ¬ b ∈ (partition_by_sections blocks).backlog := by
  rcases mem_daily_index hb with ⟨d, hd, i, hdi, hit, hig, hik, hi, hgi⟩
  refine ⟨?_, ?_, ?_⟩
  · intro hmem
    rcases mem_today_index hmem with ⟨t, ht, j, htj, hj, hgj⟩
    have hlt : i < t := hit t ht
    have : i = j := index_unique hnd hi hj (by rw [hgi, hgj])
    omega
  · intro hmem
    rcases mem_tomorrow_index hmem with ⟨g, hg, j, hgj2, hj, hgj⟩
    have hlt : i < g := hig g hg
    have : i = j := index_unique hnd hi hj (by rw [hgi, hgj])
    omega
  · intro hmem
    rcases mem_backlog_index hmem with ⟨k, hk, j, hkj, hj, hgj⟩
    have hlt : i < k := hik k hk
    have : i = j := index_unique hnd hi hj (by rw [hgi, hgj])
    omega

theorem partition_daily_subset (blocks : List Block) :
    (partition_by_sections blocks).daily ⊆ blocks := by
  unfold partition_by_sections
  simp only
  cases headerIdx blocks "Daily" with
  | none => intro b hb; cases hb
  | some d => exact pySlice_subset

theorem partition_today_subset (blocks : List Block) :
    (partition_by_sections blocks).today ⊆ blocks := by
  unfold partition_by_sections
  simp only
  cases headerIdx blocks "Today" with
  | none => intro b hb; cases hb
  | some d => exact pySlice_subset

theorem partition_tomorrow_subset (blocks : List Block) :
    (partition_by_sections blocks).tomorrow ⊆ blocks := by
  unfold partition_by_sections
  simp only
  cases headerIdx blocks "Tomorrow" with
  | none => intro b hb; cases hb
  | some d => exact pySlice_subset

theorem partition_backlog_subset (blocks : List Block) :
    (partition_by_sections blocks).backlog ⊆ blocks := by
  unfold partition_by_sections
  simp only
  cases headerIdx blocks "Backlog" with
  | none => intro b hb; cases hb
  | some d => exact pySlice_subset

/-! ### Invariants along the pipeline stages -/

theorem n1Of_ge (s : Store) : s.nextId ≤ n1Of s := by
  unfold n1Of; split <;> omega

theorem n2Of_ge (s : Store) : n1Of s ≤ n2Of s := by
  unfold n2Of; split <;> omega

theorem idsOK_doc1Of (s : Store) (h : IdsOK s.nextId s.doc) :
    IdsOK s.nextId (doc1Of s) := by
  unfold doc1Of
  rw [applyDailyReset_eq_map]
  exact idsOK_map_reset _ h

theorem idsOK_doc2Of (s : Store) (h : IdsOK s.nextId s.doc) :
    IdsOK (n1Of s) (doc2Of s) := by
  unfold doc2Of n1Of ins1Of
  by_cases hc : (mClOf s).isEmpty
  · simp only [hc, if_pos]
    exact idsOK_doc1Of s h
  · simp only [hc, if_neg, Bool.false_eq_true, not_false_iff]
    exact idsOK_insertAfter _ _ (idsOK_doc1Of s h)

theorem idsOK_doc3Of (s : Store) (h : IdsOK s.nextId s.doc) :
    IdsOK (n1Of s) (doc3Of s) :=
  idsOK_deleteIds _ (idsOK_doc2Of s h)

theorem idsOK_doc4Of (s : Store) (h : IdsOK s.nextId s.doc) :
    IdsOK (n1Of s) (doc4Of s) :=
  idsOK_deleteIds _ (idsOK_doc3Of s h)

theorem idsOK_doc5Of (s : Store) (h : IdsOK s.nextId s.doc) :
    IdsOK (n2Of s) (doc5Of s) := by
  unfold doc5Of n2Of ins2Of
  by_cases hc : (tClOf s).isEmpty
  · simp only [hc, if_pos]
    exact idsOK_doc4Of s h
  · simp only [hc, if_neg, Bool.false_eq_true, not_false_iff]
    exact idsOK_insertAfter _ _ (idsOK_doc4Of s h)

theorem idsOK_doc6Of (s : Store) (h : IdsOK s.nextId s.doc) :
    IdsOK (n2Of s) (doc6Of s) :=
  idsOK_deleteIds _ (idsOK_doc5Of s h)

theorem idsOK_doc7Of (s : Store) (h : IdsOK s.nextId s.doc) :
    IdsOK (n2Of s) (doc7Of s) :=
  idsOK_deleteIds _ (idsOK_doc6Of s h)

theorem origOK_doc6Of (s : Store) (h : ∀ z ∈ s.doc, z.id < s.nextId) :
    OrigOK s.doc s.nextId (doc6Of s) := by
  have h1 : OrigOK s.doc s.nextId (doc1Of s) := by
    unfold doc1Of
    rw [applyDailyReset_eq_map]
    exact origOK_map_reset _ (origOK_base h)
  have h2 : OrigOK s.doc s.nextId (doc2Of s) := by
    unfold doc2Of ins1Of
    by_cases hc : (mClOf s).isEmpty
    · simpa [hc] using h1
    · simp only [hc, if_neg, Bool.false_eq_true, not_false_iff]
      exact origOK_insertAfter _ _ (fun nb hnb => planClones_kind hnb)
        (Nat.le_refl _) h1
  have h3 : OrigOK s.doc s.nextId (doc3Of s) :=
    origOK_of_subset (deleteIds_subset _ _) h2
  have h4 : OrigOK s.doc s.nextId (doc4Of s) :=
    origOK_of_subset (deleteIds_subset _ _) h3
  have h5 : OrigOK s.doc s.nextId (doc5Of s) := by
    unfold doc5Of ins2Of
    by_cases hc : (tClOf s).isEmpty
    · simpa [hc] using h4
    · simp only [hc, if_neg, Bool.false_eq_true, not_false_iff]
      exact origOK_insertAfter _ _ (fun nb hnb => planClones_kind hnb)
        (n1Of_ge s) h4
  exact origOK_of_subset (deleteIds_subset _ _) h5

theorem origOK_doc7Of (s : Store) (h : ∀ z ∈ s.doc, z.id < s.nextId) :
    OrigOK s.doc s.nextId (doc7Of s) :=
  origOK_of_subset (deleteIds_subset _ _) (origOK_doc6Of s h)

theorem origIds_doc6Of (s : Store) :
    List.Sublist (origIds s.nextId (doc6Of s)) (origIds s.nextId s.doc) := by
  have h1 : origIds s.nextId (doc1Of s) = origIds s.nextId s.doc := by
    unfold doc1Of
    rw [applyDailyReset_eq_map]
    exact origIds_map_reset _ _ _
  have h2 : origIds s.nextId (doc2Of s) = origIds s.nextId s.doc := by
    unfold doc2Of ins1Of
    by_cases hc : (mClOf s).isEmpty
    · simpa [hc] using h1
    · simp only [hc, if_neg, Bool.false_eq_true, not_false_iff]
      rw [origIds_insertAfter _ _ _ _ (Nat.le_refl _)]
      exact h1
  have h3 : List.Sublist (origIds s.nextId (doc3Of s))
      (origIds s.nextId s.doc) := by
    rw [← h2]; exact origIds_deleteIds _ _ _
  have h4 : List.Sublist (origIds s.nextId (doc4Of s))
      (origIds s.nextId s.doc) :=
    (origIds_deleteIds _ _ _).trans h3
  have h5 : List.Sublist (origIds s.nextId (doc5Of s))
      (origIds s.nextId s.doc) := by
    unfold doc5Of ins2Of
    by_cases hc : (tClOf s).isEmpty
    · simpa [hc] using h4
    · simp only [hc, if_neg, Bool.false_eq_true, not_false_iff]
      rw [origIds_insertAfter _ _ _ _ (n1Of_ge s)]
      exact h4
  exact (origIds_deleteIds _ _ _).trans h5

theorem origIds_full {n0 : Nat} {doc : List Block}
    (h : ∀ z ∈ doc, z.id < n0) : origIds n0 doc = doc.map Block.id := by
  unfold origIds
  rw [List.filter_eq_self]
  intro i hi
  rcases List.mem_map.mp hi with ⟨z, hz, hzi⟩
  simp [← hzi, h z hz]

theorem mem_repDelOf {s : Store} {i : Nat} :
    i ∈ repDelOf s ↔
      ∃ w ∈ repSliceOf s, is_empty_paragraph w = true ∧ w.id = i := by
  unfold repDelOf
  simp [List.mem_map, List.mem_filter]
  constructor
  · rintro ⟨a, ⟨h1, h2⟩, h3⟩
    exact ⟨a, h1, h2, h3⟩
  · rintro ⟨a, h1, h2, h3⟩
    exact ⟨a, ⟨h1, h2⟩, h3⟩

theorem mem_placeholderStore_of_mem {ba sl : List Block} {sec : String}
    {st : Store} {b : Block} (h : b ∈ st.doc) :
    b ∈ (placeholderStore ba sl sec st).doc := by
  unfold placeholderStore
  by_cases hc : !(sl.any (fun x => x.kind == BlockKind.todo))
  · rw [if_pos hc]
    cases hh : section_header_id ba sec with
    | none => simpa using h
    | some hid => simpa using mem_insertAfterDoc_of_mem h
  · rw [if_neg hc]; exact h


/-- An original block lying outside the initial Backlog range is not in the
repair slice (the suffix after the first Backlog header of the document as
re-fetched before the contiguity repair): originals keep their relative
order through resets, insertions and deletions, and inserted blocks are
never headers. -/
theorem index_unique_nat {l : List Nat} (hnd : l.Nodup) {i j : Nat}
    (hi : i < l.length) (hj : j < l.length)
    (h : l.get ⟨i, hi⟩ = l.get ⟨j, hj⟩) : i = j := by
  have hinj := List.nodup_iff_injective_getElem.mp hnd
  have hval : (fun k : Fin l.length => l[(k : Nat)]) ⟨i, hi⟩
      = (fun k : Fin l.length => l[(k : Nat)]) ⟨j, hj⟩ := by
    simpa [List.get_eq_getElem] using h
  simpa using hinj hval

/-- An original block lying outside the initial Backlog range is not in the
repair slice (the suffix after the first Backlog header of the document as
re-fetched before the contiguity repair): originals keep their relative
order through resets, insertions and deletions, and inserted blocks are
never headers. -/
theorem orig_outside_backlog_not_in_repSlice {s : Store} {b : Block}
    (hid : IdsOK s.nextId s.doc) (hbB : b ∈ s.doc)
    (hout : ¬ inBacklogRange s.doc b) : ¬ b ∈ repSliceOf s := by
  intro hbrep
  unfold repSliceOf repRangeOf at hbrep
  -- The Backlog header of the re-fetched document.
  cases hk6 : headerIdx (doc6Of s) "Backlog" with
  | none =>
      rw [show get_section_range (doc6Of s) "backlog" = (0, 0) by
        unfold get_section_range
        simp [hk6]] at hbrep
      simp [pySlice] at hbrep
  | some k =>
      rw [show get_section_range (doc6Of s) "backlog" = (k+1, (doc6Of s).length) by
        unfold get_section_range
        simp [hk6]] at hbrep
      rcases findFirstIdx_spec hk6 with ⟨hk, hmatch, _⟩
      set H6 := (doc6Of s).get ⟨k, hk⟩ with hH6
      have hH6mem : H6 ∈ doc6Of s := by rw [hH6]; exact List.get_mem _ _ _
      have hH6g : H6 = getElem (doc6Of s) k hk := by rw [hH6, List.get_eq_getElem]
      -- b sits strictly after the header in the re-fetched document.
      rcases exists_index_of_mem_pySlice hbrep with ⟨j, hj1, _, hj3, hj4⟩
      have hsplit : doc6Of s =
          (doc6Of s).take k ++ H6 :: (doc6Of s).drop (k+1) := by
        calc doc6Of s = (doc6Of s).take k ++ (doc6Of s).drop k :=
              (List.take_append_drop k _).symm
          _ = (doc6Of s).take k ++ (H6 :: (doc6Of s).drop (k+1)) := by
              rw [← List.getElem_cons_drop (doc6Of s) k hk, ← hH6g]
      have hbq : b ∈ (doc6Of s).drop (k+1) := by
        rw [← hj4]
        exact mem_drop_of_index hj3 hj1
      -- Both ids are original ids.
      have horig6 : OrigOK s.doc s.nextId (doc6Of s) := origOK_doc6Of s hid.2
      have hH6id : H6.id < s.nextId := by
        by_cases hcon : H6.id < s.nextId
        · exact hcon
        · have hkind := (horig6 H6 hH6mem).2 (by omega)
          rcases is_header_kind hmatch with hh | hh <;>
            (rw [hkind] at hh; cases hh)
      have hbid : b.id < s.nextId := hid.2 b hbB
      -- The pair (header id, b id) is ordered in the original-id
      -- projection, which is a subsequence of the initial ids.
      have hpair : List.Sublist [H6.id, b.id] (origIds s.nextId (doc6Of s)) :=
        pair_in_origIds hsplit hbq hH6id hbid
      have hpair2 : List.Sublist [H6.id, b.id] (s.doc.map Block.id) := by
        have := hpair.trans (origIds_doc6Of s)
        rwa [origIds_full hid.2] at this
      rcases pair_sublist_index hpair2 with ⟨i, j2, hij, hj2len, hilen, hia, hjb⟩
      -- The original block carrying the header id matches the Backlog
      -- header predicate, so its index in the initial document is not
      -- before the first Backlog header index h0.
      obtain ⟨z0, hz0mem, hz0id, hz0kind, hz0text⟩ := (horig6 H6 hH6mem).1 hH6id
      have hz0match : is_header_with_text z0 ["Backlog"] = true := by
        rw [← is_header_congr hz0kind hz0text ["Backlog"]]
        exact hmatch
      cases hh0 : headerIdx s.doc "Backlog" with
      | none =>
          have := findFirstIdx_none hh0 z0 hz0mem
          rw [hz0match] at this; cases this
      | some h0 =>
          rcases findFirstIdx_spec hh0 with ⟨hh0len, _, hleast⟩
          rcases List.mem_iff_getElem.mp hz0mem with ⟨m, hm, hmz⟩
          have hm0 : h0 ≤ m := by
            by_contra hcon
            have hfalse := hleast m hm (by omega)
            rw [show s.doc.get ⟨m, hm⟩ = z0 by simp [List.get_eq_getElem, hmz]]
              at hfalse
            rw [hz0match] at hfalse
            cases hfalse
          rcases List.mem_iff_getElem.mp hbB with ⟨ib, hib, hibb⟩
          have hble : ib ≤ h0 := by
            by_contra hcon
            apply hout
            unfold inBacklogRange
            rw [show get_section_range s.doc "backlog" = (h0+1, s.doc.length) by
              unfold get_section_range
              simp [hh0]]
            have hmemslice : s.doc.get ⟨ib, hib⟩ ∈
                pySlice s.doc (h0+1) s.doc.length :=
              mem_pySlice_of_index (by omega) (by omega) hib
            rwa [show s.doc.get ⟨ib, hib⟩ = b by
              simp [List.get_eq_getElem, hibb]] at hmemslice
          -- Identify the positions in the id projection.
          have hmlen : m < (s.doc.map Block.id).length := by simpa using hm
          have hiblen : ib < (s.doc.map Block.id).length := by simpa using hib
          have hgm : (s.doc.map Block.id).get ⟨m, hmlen⟩ = H6.id := by
            rw [List.get_eq_getElem, List.getElem_map]
            rw [hmz, hz0id]
          have hgib : (s.doc.map Block.id).get ⟨ib, hiblen⟩ = b.id := by
            rw [List.get_eq_getElem, List.getElem_map]
            rw [hibb]
          have him : i = m :=
            index_unique_nat hid.1 hilen hmlen (by rw [hia, hgm])
          have hjib : j2 = ib :=
            index_unique_nat hid.1 hj2len hiblen (by rw [hjb, hgib])
          omega

theorem resetFun_mem {ids : List Nat} {z : Block} (h : z.id ∈ ids) :
    resetFun ids z = { z with checked := false } := by
  simp [resetFun, h]

theorem repSliceOf_subset (s : Store) : repSliceOf s ⊆ doc6Of s := by
  unfold repSliceOf
  exact pySlice_subset

/-- A to_do id never belongs to the deletion plan built from a slice of a
document in which the given non-to_do block lives (ids are unique). -/
theorem not_mem_planDeleteIds_of_kind {s : Store} {b : Block}
    (hid : IdsOK s.nextId s.doc) (hb : b ∈ s.doc)
    (hkind : ¬ b.kind = BlockKind.todo) {l : List Block} (hl : l ⊆ s.doc) :
    ¬ b.id ∈ planDeleteIds l := by
  intro h
  rcases mem_planDeleteIds.mp h with ⟨z, hz, hzk, hzi⟩
  have : z = b := eq_of_mem_of_id_eq hid.1 (hl hz) hb hzi
  rw [this] at hzk
  exact hkind hzk

theorem not_mem_bkDeleteIds_of_kind {s : Store} {b : Block}
    (hid : IdsOK s.nextId s.doc) (hb : b ∈ s.doc)
    (hkind : ¬ b.kind = BlockKind.todo) {l : List Block} (hl : l ⊆ s.doc) :
    ¬ b.id ∈ bkDeleteIds l := by
  intro h
  rcases mem_bkDeleteIds.mp h with ⟨z, hz, ⟨hzk, _⟩, hzi⟩
  have : z = b := eq_of_mem_of_id_eq hid.1 (hl hz) hb hzi
  rw [this] at hzk
  exact hkind hzk

/-- Frame property in pure form: a block that is not a checklist item, and
is not an empty paragraph inside the initial Backlog range, survives the
entire pipeline unchanged. -/
theorem protected_block_survives (s : Store) (hid : IdsOK s.nextId s.doc)
    {b : Block} (hb : b ∈ s.doc) (hkind : ¬ b.kind = BlockKind.todo)
    (hpar : ¬ (is_empty_paragraph b = true ∧ inBacklogRange s.doc b)) :
    b ∈ (storeFinOf s).doc := by
  have hb1 : b ∈ doc1Of s := by
    unfold doc1Of
    rw [applyDailyReset_eq_map]
    have hnot : ¬ b.id ∈ planDeleteIds (partsOf s).daily :=
      not_mem_planDeleteIds_of_kind hid hb hkind (partition_daily_subset s.doc)
    have heq : resetFun (planDeleteIds (partsOf s).daily) b = b :=
      resetFun_not_mem hnot
    rw [← heq]
    exact List.mem_map_of_mem _ hb
  have hb2 : b ∈ doc2Of s := by
    unfold doc2Of
    by_cases hc : (mClOf s).isEmpty
    · simpa [hc] using hb1
    · simp only [hc, if_neg, Bool.false_eq_true, not_false_iff]
      exact mem_insertAfterDoc_of_mem hb1
  have hb3 : b ∈ doc3Of s := by
    unfold doc3Of
    rw [mem_deleteIds_iff]
    exact ⟨hb2, not_mem_planDeleteIds_of_kind hid hb hkind
      (partition_tomorrow_subset s.doc)⟩
  have hb4 : b ∈ doc4Of s := by
    unfold doc4Of
    rw [mem_deleteIds_iff]
    exact ⟨hb3, not_mem_bkDeleteIds_of_kind hid hb hkind
      (partition_backlog_subset s.doc)⟩
  have hb5 : b ∈ doc5Of s := by
    unfold doc5Of
    by_cases hc : (tClOf s).isEmpty
    · simpa [hc] using hb4
    · simp only [hc, if_neg, Bool.false_eq_true, not_false_iff]
      exact mem_insertAfterDoc_of_mem hb4
  have hb6 : b ∈ doc6Of s := by
    unfold doc6Of
    rw [mem_deleteIds_iff]
    exact ⟨hb5, not_mem_planDeleteIds_of_kind hid hb hkind
      (partition_today_subset s.doc)⟩
  have hb7 : b ∈ doc7Of s := by
    unfold doc7Of
    rw [mem_deleteIds_iff]
    refine ⟨hb6, ?_⟩
    intro hrep
    rcases mem_repDelOf.mp hrep with ⟨w, hw, hwe, hwi⟩
    have hw6 : w ∈ doc6Of s := repSliceOf_subset s hw
    have hids6 : IdsOK (n2Of s) (doc6Of s) := idsOK_doc6Of s hid
    have hwb : w = b := eq_of_mem_of_id_eq hids6.1 hw6 hb6 hwi
    subst hwb
    by_cases hbe : is_empty_paragraph w = true
    · have hout : ¬ inBacklogRange s.doc w := fun hcontra =>
        hpar ⟨hbe, hcontra⟩
      exact orig_outside_backlog_not_in_repSlice hid hb hout hw
    · exact hbe hwe
  unfold storeFinOf store9Of store8Of
  exact mem_placeholderStore_of_mem (mem_placeholderStore_of_mem
    (mem_placeholderStore_of_mem hb7))

/-- Daily to_do items survive the pipeline with their checkbox cleared and
identity, kind and text intact. -/
theorem daily_todo_survives (s : Store) (hid : IdsOK s.nextId s.doc)
    {z : Block} (hz : z ∈ (partsOf s).daily)
    (hk : z.kind = BlockKind.todo) :
    { z with checked := false } ∈ (storeFinOf s).doc := by
  have hzB : z ∈ s.doc := partition_daily_subset s.doc hz
  have hzid : z.id ∈ planDeleteIds (partsOf s).daily :=
    mem_planDeleteIds.mpr ⟨z, hz, hk, rfl⟩
  set z2 : Block := { z with checked := false } with hz2
  have hdisj := daily_slice_disjoint hid.1 hz
  have hnot_tom : ¬ z.id ∈ planDeleteIds (partsOf s).tomorrow := by
    intro h
    rcases mem_planDeleteIds.mp h with ⟨w, hw, _, hwi⟩
    have : w = z := eq_of_mem_of_id_eq hid.1
      (partition_tomorrow_subset s.doc hw) hzB hwi
    exact hdisj.2.1 (this ▸ hw)
  have hnot_tod : ¬ z.id ∈ planDeleteIds (partsOf s).today := by
    intro h
    rcases mem_planDeleteIds.mp h with ⟨w, hw, _, hwi⟩
    have : w = z := eq_of_mem_of_id_eq hid.1
      (partition_today_subset s.doc hw) hzB hwi
    exact hdisj.1 (this ▸ hw)
  have hnot_bk : ¬ z.id ∈ bkDeleteIds (partsOf s).backlog := by
    intro h
    rcases mem_bkDeleteIds.mp h with ⟨w, hw, _, hwi⟩
    have : w = z := eq_of_mem_of_id_eq hid.1
      (partition_backlog_subset s.doc hw) hzB hwi
    exact hdisj.2.2 (this ▸ hw)
  have hb1 : z2 ∈ doc1Of s := by
    unfold doc1Of
    rw [applyDailyReset_eq_map]
    rw [hz2, ← resetFun_mem hzid]
    exact List.mem_map_of_mem _ hzB
  have hb2 : z2 ∈ doc2Of s := by
    unfold doc2Of
    by_cases hc : (mClOf s).isEmpty
    · simpa [hc] using hb1
    · simp only [hc, if_neg, Bool.false_eq_true, not_false_iff]
      exact mem_insertAfterDoc_of_mem hb1
  have hb3 : z2 ∈ doc3Of s := by
    unfold doc3Of
    rw [mem_deleteIds_iff]
    exact ⟨hb2, hnot_tom⟩
  have hb4 : z2 ∈ doc4Of s := by
    unfold doc4Of
    rw [mem_deleteIds_iff]
    exact ⟨hb3, hnot_bk⟩
  have hb5 : z2 ∈ doc5Of s := by
    unfold doc5Of
    by_cases hc : (tClOf s).isEmpty
    · simpa [hc] using hb4
    · simp only [hc, if_neg, Bool.false_eq_true, not_false_iff]
      exact mem_insertAfterDoc_of_mem hb4
  have hb6 : z2 ∈ doc6Of s := by
    unfold doc6Of
    rw [mem_deleteIds_iff]
    exact ⟨hb5, hnot_tod⟩
  have hb7 : z2 ∈ doc7Of s := by
    unfold doc7Of
    rw [mem_deleteIds_iff]
    refine ⟨hb6, ?_⟩
    intro hrep
    rcases mem_repDelOf.mp hrep with ⟨w, hw, hwe, hwi⟩
    have hw6 : w ∈ doc6Of s := repSliceOf_subset s hw
    have hids6 : IdsOK (n2Of s) (doc6Of s) := idsOK_doc6Of s hid
    have hwb : w = z2 := eq_of_mem_of_id_eq hids6.1 hw6 hb6 hwi
    rw [hwb] at hwe
    unfold is_empty_paragraph at hwe
    rw [show z2.kind = BlockKind.todo from hk] at hwe
    simp at hwe
  unfold storeFinOf store9Of store8Of
  exact mem_placeholderStore_of_mem (mem_placeholderStore_of_mem
    (mem_placeholderStore_of_mem hb7))

/-! ### Claim theorems -/

/-- C7: a block is recognized as a section header exactly when its kind is
heading or paragraph and its text, after trimming a trailing colon and
case-folding, starts with the section name (prefix match, not equality) —
"Today: (2/5)" and "Todayish" are both recognized as the Today header
while a to_do block with the literal text "Today:" is not — and the
header-locating scan returns the first occurrence in list order, ignoring
later duplicates. -/
theorem c7_header_prefix_first_wins :
    is_header_with_text
      (exBlock 0 BlockKind.heading "Today: (2/5)" false) ["Today"] = true
    ∧ is_header_with_text
      (exBlock 0 BlockKind.paragraph "Todayish" false) ["Today"] = true
    ∧ is_header_with_text
      (exBlock 0 BlockKind.todo "Today:" false) ["Today"] = false
    ∧ (∀ (blocks : List Block) (name : String) (i : Nat),
        headerIdx blocks name = some i →
        ∃ hi : i < blocks.length,
          is_header_with_text (blocks.get ⟨i, hi⟩) [name] = true
          ∧ ∀ j (hj : j < blocks.length), j < i →
              is_header_with_text (blocks.get ⟨j, hj⟩) [name] = false) := by
  refine ⟨by decide, by decide, by decide, ?_⟩
  intro blocks name i h
  exact findFirstIdx_spec h

/-- Witness for C7 at a document with a duplicated Today header: the scan
returns index 1, the block there matches, and no earlier block matches,
even though index 3 holds another matching header. -/
theorem c7_witness :
    headerIdx dupDoc "Today" = some 1
    ∧ (∃ hi : 1 < dupDoc.length,
        is_header_with_text (dupDoc.get ⟨1, hi⟩) ["Today"] = true
        ∧ ∀ j (hj : j < dupDoc.length), j < 1 →
            is_header_with_text (dupDoc.get ⟨j, hj⟩) ["Today"] = false)
    ∧ is_header_with_text (dupDoc.get ⟨3, by decide⟩) ["Today"] = true :=
  ⟨by decide,
   c7_header_prefix_first_wins.2.2.2 dupDoc "Today" 1 (by decide),
   by decide⟩

/-- C5: for a present section, `get_section_range` returns exactly the
spec's range [headerIndex+1, end) with end the minimum index among present
headers of the sections following it in the fixed precedence
Daily < Today < Tomorrow < Backlog, or the list length if none; on the
spec's example (headers Daily=0, Today=4, Backlog=9, Tomorrow absent,
n=11): rangeOf(today) = [5,9), rangeOf(backlog) = [10,11), and Tomorrow is
absent (the code renders an absent section as the empty range (0,0)). -/
theorem c5_range_refines_spec :
    (∀ (blocks : List Block) (name : String) (r : Nat × Nat),
        rangeOf_fromSpec blocks name = some r →
        get_section_range blocks name = r)
    ∧ get_section_range exampleDoc "today" = (5, 9)
    ∧ get_section_range exampleDoc "backlog" = (10, 11)
    ∧ rangeOf_fromSpec exampleDoc "tomorrow" = none
    ∧ get_section_range exampleDoc "tomorrow" = (0, 0) := by
  refine ⟨?_, by decide, by decide, by decide, by decide⟩
  intro blocks name r hr
  unfold rangeOf_fromSpec headerIdxFor laterHeaderIdxs at hr
  unfold get_section_range
  by_cases h1 : name == "daily"
  · simp only [h1, if_pos] at hr ⊢
    cases hd : headerIdx blocks "Daily" with
    | none => rw [hd] at hr; cases hr
    | some d =>
        rw [hd] at hr
        simp only [Option.some.injEq] at hr
        simp [← hr]
  · simp only [h1, if_neg, Bool.false_eq_true, not_false_iff] at hr ⊢
    by_cases h2 : name == "today"
    · simp only [h2, if_pos] at hr ⊢
      cases hd : headerIdx blocks "Today" with
      | none => rw [hd] at hr; cases hr
      | some d =>
          rw [hd] at hr
          simp only [Option.some.injEq] at hr
          simp [← hr]
    · simp only [h2, if_neg, Bool.false_eq_true, not_false_iff] at hr ⊢
      by_cases h3 : name == "tomorrow"
      · simp only [h3, if_pos] at hr ⊢
        cases hd : headerIdx blocks "Tomorrow" with
        | none => rw [hd] at hr; cases hr
        | some d =>
            rw [hd] at hr
            simp only [Option.some.injEq] at hr
            cases hb : headerIdx blocks "Backlog" with
            | none => rw [← hr]; simp [minList, hb]
            | some k => rw [← hr]; simp [minList, hb]
      · simp only [h3, if_neg, Bool.false_eq_true, not_false_iff] at hr ⊢
        by_cases h4 : name == "backlog"
        · simp only [h4, if_pos] at hr ⊢
          cases hd : headerIdx blocks "Backlog" with
          | none => rw [hd] at hr; cases hr
          | some d =>
              rw [hd] at hr
              simp only [Option.some.injEq] at hr
              simp [← hr, minList]
        · simp only [h4, if_neg, Bool.false_eq_true, not_false_iff] at hr
          cases hr

/-- Witness for C5: the refinement instantiated at the example document and
the Today section. -/
theorem c5_witness :
    rangeOf_fromSpec exampleDoc "today" = some (5, 9)
    ∧ get_section_range exampleDoc "today" = (5, 9) :=
  ⟨by decide, c5_range_refines_spec.1 exampleDoc "today" (5, 9) (by decide)⟩

/-- C9: for each of the four section names, when the document contains no
block recognized as that section's header, `get_section_range` returns the
concrete empty range (0, 0) rather than failing. -/
theorem c9_absent_header_empty_range :
    ∀ (blocks : List Block) (name : String),
      name ∈ ["daily", "today", "tomorrow", "backlog"] →
      headerIdxFor blocks name = none →
      get_section_range blocks name = (0, 0) := by
  intro blocks name hname habs
  unfold headerIdxFor at habs
  unfold get_section_range
  simp only [List.mem_cons, List.not_mem_nil, or_false] at hname
  rcases hname with h | h | h | h
  · subst h
    simp at habs
    simp [habs]
  · subst h
    simp at habs
    simp [habs]
  · subst h
    simp at habs
    simp [habs]
  · subst h
    simp at habs
    simp [habs]

/-- Witness for C9: the example document has no Tomorrow header, and the
Tomorrow range degrades to (0, 0). -/
theorem c9_witness :
    headerIdxFor exampleDoc "tomorrow" = none
    ∧ get_section_range exampleDoc "tomorrow" = (0, 0) :=
  ⟨by decide,
   c9_absent_header_empty_range exampleDoc "tomorrow" (by decide) (by decide)⟩

/-- C1 counterexample — scenario B (Tomorrow holds one unchecked item "C",
Today empty): contrary to the claim, the run does NOT end with C's copy in
Backlog and a placeholder-only Today; the final Backlog slice is empty and
C's unchecked copy is the sole Today item.  The demotion step iterated the
Today slice of the pre-migration snapshot (which was empty). -/
theorem c1_counterexample :
    ¬ (∃ b ∈ (partition_by_sections
          (runCleanup envHappy storeScenB).1.store.doc).backlog,
        rich_text_to_plain b = "C")
    ∧ (∃ b ∈ (partition_by_sections
          (runCleanup envHappy storeScenB).1.store.doc).today,
        b.kind = BlockKind.todo ∧ rich_text_to_plain b = "C"
          ∧ b.checked = false) := by
  constructor
  · decide
  · decide

/-- C1 amended: the Today-demotion step operates on the Today slice of the
snapshot fetched at the start of the run, before the Tomorrow migration, so
the unchecked copies appended in step 3 are not demoted; in scenario B the
run ends with C's unchecked copy as the sole Today content, a placeholder
appended to Tomorrow, Backlog unchanged (empty), and the only deletion is
C's Tomorrow original. -/
theorem c1_amended :
    (runCleanup envHappy storeScenB).1.store.doc =
      [ exBlock 0 BlockKind.heading "Today:" false,
        exBlock 4 BlockKind.todo "C" false,
        exBlock 1 BlockKind.heading "Tomorrow:" false,
        exBlock 5 BlockKind.todo "" false,
        exBlock 3 BlockKind.heading "Backlog:" false ]
    ∧ (runCleanup envHappy storeScenB).2 = Except.ok ()
    ∧ Event.usedSlice "today" [] ∈ (runCleanup envHappy storeScenB).1.trace
    ∧ ((runCleanup envHappy storeScenB).1.trace.filter isMutationEvent) =
      [ Event.insertedAfter 0 [exBlock 4 BlockKind.todo "C" false]
          [ exBlock 0 BlockKind.heading "Today:" false,
            exBlock 4 BlockKind.todo "C" false,
            exBlock 1 BlockKind.heading "Tomorrow:" false,
            exBlock 2 BlockKind.todo "C" false,
            exBlock 3 BlockKind.heading "Backlog:" false ],
        Event.deleted 2,
        Event.insertedAfter 1 [exBlock 5 BlockKind.todo "" false]
          [ exBlock 0 BlockKind.heading "Today:" false,
            exBlock 4 BlockKind.todo "C" false,
            exBlock 1 BlockKind.heading "Tomorrow:" false,
            exBlock 5 BlockKind.todo "" false,
            exBlock 3 BlockKind.heading "Backlog:" false ] ] := by
  refine ⟨by decide, by rfl, by decide, by decide⟩

/-- C2 (code bug): a non-ok HTTP response while writing the cycle-outcome
record makes `create_page_in_db` raise SystemExit, which the surrounding
`except Exception` clause does not catch — the run aborts instead of
continuing with a warning.  Only ordinary exceptions (e.g. transport
failures) are downgraded to the intended warning. -/
theorem c2_log_failure_aborts_run :
    (runCleanup envDailyHttpErr storeDailyOne).2 =
      Except.error (PyErr.systemExit "Failed to create page in DB")
    ∧ (runCleanup envDailyTransportErr storeDailyOne).2 = Except.ok ()
    ∧ Event.warned "Failed to write Daily Completion" ∈
        (runCleanup envDailyTransportErr storeDailyOne).1.trace := by
  refine ⟨by rfl, by rfl, by decide⟩

/-- C3 counterexample — scenario B: the Today and Backlog slices consumed
by the Backlog-cleanup and Today-demotion steps are bound after the
Tomorrow-migration insert/delete with no re-fetch in between, so the run's
trace violates the claimed fetch-after-every-mutation discipline. -/
theorem c3_counterexample :
    hasStaleSliceUse (runCleanup envHappy storeScenB).1.trace = true := by
  decide

/-! ### Event-shape lemmas for the trace segments -/

theorem mem_dailyEvs {l : List Block} {e : Event} (h : e ∈ dailyEvs l) :
    ∃ b ∈ l, b.kind = BlockKind.todo ∧ e = Event.setCheckedEv b.id false := by
  induction l with
  | nil => cases h
  | cons b rest ih =>
      rw [dailyEvs] at h
      rcases List.mem_append.mp h with h1 | h1
      · by_cases hb : b.kind == BlockKind.todo
        · rw [if_pos hb] at h1
          rcases List.mem_singleton.mp h1 with h2
          exact ⟨b, by simp, by simpa using hb, h2⟩
        · rw [if_neg hb] at h1; cases h1
      · rcases ih h1 with ⟨z, hz, hzk, hze⟩
        exact ⟨z, List.mem_cons_of_mem b hz, hzk, hze⟩

theorem dailyEvs_mem {l : List Block} {b : Block} (hb : b ∈ l)
    (hk : b.kind = BlockKind.todo) :
    Event.setCheckedEv b.id false ∈ dailyEvs l := by
  induction l with
  | nil => cases hb
  | cons x rest ih =>
      rw [dailyEvs]
      rcases List.mem_cons.mp hb with h1 | h1
      · subst h1
        rw [if_pos (by simp [hk])]
        exact List.mem_append.mpr (Or.inl (by simp))
      · exact List.mem_append.mpr (Or.inr (ih h1))

theorem dailyEvs_no_mutation {l : List Block} {e : Event}
    (h : e ∈ dailyEvs l) : isMutationEvent e = false := by
  rcases mem_dailyEvs h with ⟨b, _, _, he⟩
  rw [he]; rfl

theorem mem_doneEvs {env : Env} {txt : String} {e : Event}
    (h : e ∈ doneEvs env txt) :
    (∃ s2, e = Event.logDone s2) ∨ (∃ s2, e = Event.warned s2) := by
  unfold doneEvs at h
  by_cases hdb : env.dailyDb <;> by_cases hdd : env.doneDb <;>
    cases hw : env.doneWrite <;> simp_all

theorem doneEvs_no_mutation {env : Env} {txt : String} {e : Event}
    (h : e ∈ doneEvs env txt) : isMutationEvent e = false := by
  rcases mem_doneEvs h with ⟨s2, he⟩ | ⟨s2, he⟩ <;> (rw [he]; rfl)

theorem doneEvs_no_completion {env : Env} {txt : String} {e : Event}
    (h : e ∈ doneEvs env txt) : evCompletion e = none := by
  rcases mem_doneEvs h with ⟨s2, he⟩ | ⟨s2, he⟩ <;> (rw [he]; rfl)

theorem mem_planEvs {env : Env} {l : List Block} {e : Event}
    (h : e ∈ planEvs env l) : ∃ txt, e ∈ doneEvs env txt := by
  induction l with
  | nil => cases h
  | cons b rest ih =>
      rw [planEvs] at h
      rcases List.mem_append.mp h with h1 | h1
      · by_cases hb : b.kind == BlockKind.todo && b.checked
        · rw [if_pos hb] at h1
          exact ⟨rich_text_to_plain b, h1⟩
        · rw [if_neg hb] at h1; cases h1
      · exact ih h1

theorem planEvs_no_mutation {env : Env} {l : List Block} {e : Event}
    (h : e ∈ planEvs env l) : isMutationEvent e = false := by
  rcases mem_planEvs h with ⟨txt, h1⟩
  exact doneEvs_no_mutation h1

theorem planEvs_no_completion {env : Env} {l : List Block} {e : Event}
    (h : e ∈ planEvs env l) : evCompletion e = none := by
  rcases mem_planEvs h with ⟨txt, h1⟩
  exact doneEvs_no_completion h1

theorem mem_dailyLogEvs {env : Env} {c t : Nat} {e : Event}
    (h : e ∈ dailyLogEvs env c t) :
    (e = Event.logCompletion (toString c ++ "/" ++ toString t))
      ∨ (∃ s2, e = Event.warned s2) := by
  unfold dailyLogEvs at h
  by_cases hdb : env.dailyDb <;> cases hw : env.dailyWrite <;>
    simp_all

theorem dailyLogEvs_no_mutation {env : Env} {c t : Nat} {e : Event}
    (h : e ∈ dailyLogEvs env c t) : isMutationEvent e = false := by
  rcases mem_dailyLogEvs h with he | ⟨s2, he⟩ <;> (rw [he]; rfl)

theorem mem_bkEvs {env : Env} {l : List Block} {e : Event}
    (h : e ∈ bkEvs env l) :
    (∃ txt, e ∈ doneEvs env txt) ∨ (∃ i, e = Event.deleted i) := by
  induction l with
  | nil => cases h
  | cons b rest ih =>
      rw [bkEvs] at h
      rcases List.mem_append.mp h with h1 | h1
      · by_cases hb : b.kind == BlockKind.todo && b.checked
        · rw [if_pos hb] at h1
          rcases List.mem_append.mp h1 with h2 | h2
          · exact Or.inl ⟨rich_text_to_plain b, h2⟩
          · exact Or.inr ⟨b.id, List.mem_singleton.mp h2⟩
        · rw [if_neg hb] at h1; cases h1
      · exact ih h1

theorem bkEvs_no_completion {env : Env} {l : List Block} {e : Event}
    (h : e ∈ bkEvs env l) : evCompletion e = none := by
  rcases mem_bkEvs h with ⟨txt, h1⟩ | ⟨i, h1⟩
  · exact doneEvs_no_completion h1
  · rw [h1]; rfl

theorem mem_placeholderEvs {ba sl : List Block} {sec : String} {st : Store}
    {e : Event} (h : e ∈ placeholderEvs ba sl sec st) :
    ∃ a nbs d, e = Event.insertedAfter a nbs d := by
  unfold placeholderEvs at h
  by_cases hc : !(sl.any (fun x => x.kind == BlockKind.todo))
  · rw [if_pos hc] at h
    cases hh : section_header_id ba sec with
    | none => rw [hh] at h; cases h
    | some hid =>
        rw [hh] at h
        rcases List.mem_singleton.mp h with h1
        exact ⟨hid, _, _, h1⟩
  · rw [if_neg hc] at h; cases h

theorem placeholderEvs_no_completion {ba sl : List Block} {sec : String}
    {st : Store} {e : Event} (h : e ∈ placeholderEvs ba sl sec st) :
    evCompletion e = none := by
  rcases mem_placeholderEvs h with ⟨a, nbs, d, he⟩
  rw [he]; rfl

theorem deleted_map_no_completion {ids : List Nat} {e : Event}
    (h : e ∈ ids.map Event.deleted) : evCompletion e = none := by
  rcases List.mem_map.mp h with ⟨i, _, he⟩
  rw [← he]; rfl

/-! ### Abort paths of the run -/

theorem runCleanup_abort_today (env : Env) (s : Store)
    (hD : env.dailyWrite ≠ .httpErr)
    (h : section_header_id s.doc "today" = none) :
    runCleanup env s =
      ({ store := { doc := doc1Of s, nextId := s.nextId },
         trace := [Event.fetched s.doc,
             Event.usedSlice "daily" (partsOf s).daily]
           ++ dailyEvs (partsOf s).daily
           ++ (if (statsOf s).2 > 0 then
                dailyLogEvs env (statsOf s).1 (statsOf s).2 else []) },
       Except.error (.systemExit "Could not find Today header")) := by
  unfold runCleanup cleanup_todo_page
  simp only [M_bind_apply, M_ite_apply, M_pure_apply, get_all_children, emitM,
    dailyLoop_apply, tryWarnDaily_apply env hD, requireSome, h, raiseM, M.pure]
  split_ifs <;> simp_all [doc1Of, partsOf, statsOf, List.append_assoc]

theorem runCleanup_abort_backlog (env : Env) (s : Store) (th : Nat)
    (hD : env.dailyWrite ≠ .httpErr)
    (hth : section_header_id s.doc "today" = some th)
    (h : section_header_id s.doc "backlog" = none) :
    runCleanup env s =
      ({ store := { doc := doc1Of s, nextId := s.nextId },
         trace := [Event.fetched s.doc,
             Event.usedSlice "daily" (partsOf s).daily]
           ++ dailyEvs (partsOf s).daily
           ++ (if (statsOf s).2 > 0 then
                dailyLogEvs env (statsOf s).1 (statsOf s).2 else []) },
       Except.error (.systemExit "Could not find Backlog header")) := by
  unfold runCleanup cleanup_todo_page
  simp only [M_bind_apply, M_ite_apply, M_pure_apply, get_all_children, emitM,
    dailyLoop_apply, tryWarnDaily_apply env hD, requireSome, hth, h, raiseM,
    M.pure]
  split_ifs <;> simp_all [doc1Of, partsOf, statsOf, List.append_assoc]

/-- C4: when the Today header (or, with Today present, the Backlog header)
is missing, the run aborts with a fatal SystemExit naming the missing
header; the abort happens after the Daily reset (every Daily to_do has its
uncheck call in the trace) and before any structural mutation (no insert or
delete event at all, and every checkbox patch targets a Daily to_do with
value false); an absent Tomorrow header is not an error: with Today and
Backlog present the run succeeds, the Tomorrow slice is empty, and the
migration loop is a pure no-op. -/
theorem c4_header_check (env : Env) (s : Store)
    (hD : env.dailyWrite ≠ .httpErr) (hN : env.doneWrite ≠ .httpErr) :
    (section_header_id s.doc "today" = none →
      (runCleanup env s).2 =
          Except.error (.systemExit "Could not find Today header")
      ∧ (∀ e ∈ (runCleanup env s).1.trace, isMutationEvent e = false)
      ∧ (∀ b ∈ (partition_by_sections s.doc).daily,
          b.kind = BlockKind.todo →
          Event.setCheckedEv b.id false ∈ (runCleanup env s).1.trace)
      ∧ (∀ i v, Event.setCheckedEv i v ∈ (runCleanup env s).1.trace →
          v = false ∧ ∃ b ∈ (partition_by_sections s.doc).daily,
            b.kind = BlockKind.todo ∧ b.id = i))
    ∧ (∀ th, section_header_id s.doc "today" = some th →
        section_header_id s.doc "backlog" = none →
        (runCleanup env s).2 =
            Except.error (.systemExit "Could not find Backlog header")
        ∧ (∀ e ∈ (runCleanup env s).1.trace, isMutationEvent e = false)
        ∧ (∀ b ∈ (partition_by_sections s.doc).daily,
            b.kind = BlockKind.todo →
            Event.setCheckedEv b.id false ∈ (runCleanup env s).1.trace))
    ∧ (∀ th bh, section_header_id s.doc "today" = some th →
        section_header_id s.doc "backlog" = some bh →
        (runCleanup env s).2 = Except.ok ()
        ∧ (headerIdx s.doc "Tomorrow" = none →
            (partition_by_sections s.doc).tomorrow = []
            ∧ ∀ rs, tomorrowPlan env [] rs = (rs, Except.ok ([], [])))) := by
  refine ⟨?_, ?_, ?_⟩
  · intro h
    rw [runCleanup_abort_today env s hD h]
    refine ⟨rfl, ?_, ?_, ?_⟩
    · intro e he
      rcases List.mem_append.mp he with h1 | h1
      · rcases List.mem_cons.mp h1 with h2 | h2
        · rw [h2]; rfl
        · rcases List.mem_cons.mp h2 with h3 | h3
          · rw [h3]; rfl
          · exact dailyEvs_no_mutation h3
      · by_cases hc : (statsOf s).2 > 0
        · rw [if_pos hc] at h1
          exact dailyLogEvs_no_mutation h1
        · rw [if_neg hc] at h1; cases h1
    · intro b hb hk
      exact List.mem_append.mpr (Or.inl (List.mem_cons_of_mem _
        (List.mem_cons_of_mem _ (dailyEvs_mem hb hk))))
    · intro i v hmem
      rcases List.mem_append.mp hmem with h1 | h1
      · rcases List.mem_cons.mp h1 with h2 | h2
        · cases h2
        · rcases List.mem_cons.mp h2 with h3 | h3
          · cases h3
          · rcases mem_dailyEvs h3 with ⟨b, hb, hbk, hbe⟩
            cases hbe
            exact ⟨rfl, b, hb, hbk, rfl⟩
      · by_cases hc : (statsOf s).2 > 0
        · rw [if_pos hc] at h1
          rcases mem_dailyLogEvs h1 with he2 | ⟨s2, he2⟩ <;> cases he2
        · rw [if_neg hc] at h1; cases h1
  · intro th hth h
    rw [runCleanup_abort_backlog env s th hD hth h]
    refine ⟨rfl, ?_, ?_⟩
    · intro e he
      rcases List.mem_append.mp he with h1 | h1
      · rcases List.mem_cons.mp h1 with h2 | h2
        · rw [h2]; rfl
        · rcases List.mem_cons.mp h2 with h3 | h3
          · rw [h3]; rfl
          · exact dailyEvs_no_mutation h3
      · by_cases hc : (statsOf s).2 > 0
        · rw [if_pos hc] at h1
          exact dailyLogEvs_no_mutation h1
        · rw [if_neg hc] at h1; cases h1
    · intro b hb hk
      exact List.mem_append.mpr (Or.inl (List.mem_cons_of_mem _
        (List.mem_cons_of_mem _ (dailyEvs_mem hb hk))))
  · intro th bh hth hbh
    rw [runCleanup_nf env s th bh hth hbh hD hN]
    refine ⟨rfl, ?_⟩
    intro habs
    constructor
    · unfold partition_by_sections
      simp [habs]
    · intro rs
      rfl

/-- Witness for C4 at a document with a Daily section but no Today header:
the run aborts with the Today error after unchecking the Daily item, and
issues no structural mutation. -/
theorem c4_witness :
    section_header_id ([ exBlock 0 BlockKind.heading "Daily:" false,
        exBlock 1 BlockKind.todo "d" true ] : List Block) "today" = none
    ∧ (runCleanup envHappy
        { doc := [ exBlock 0 BlockKind.heading "Daily:" false,
                   exBlock 1 BlockKind.todo "d" true ], nextId := 2 }).2 =
        Except.error (.systemExit "Could not find Today header") :=
  ⟨by decide,
   (((c4_header_check envHappy
      { doc := [ exBlock 0 BlockKind.heading "Daily:" false,
                 exBlock 1 BlockKind.todo "d" true ], nextId := 2 }
      (by decide) (by decide)).1 (by decide)).1)⟩

/-- C3 amended: the Backlog-cleanup and Today-demotion steps iterate the
Today and Backlog slices of the snapshot fetched at the start of the run
(stale once the Tomorrow migration has inserted or deleted blocks, as the
counterexample shows); a re-fetch does happen immediately before the
Backlog contiguity repair computes its slice and immediately before the
placeholder step partitions the document, with no mutation in between. -/
theorem c3_refetch_discipline (env : Env) (s : Store) (th bh : Nat)
    (hth : section_header_id s.doc "today" = some th)
    (hbh : section_header_id s.doc "backlog" = some bh)
    (hD : env.dailyWrite ≠ .httpErr) (hN : env.doneWrite ≠ .httpErr) :
    Event.usedSlice "today" (partition_by_sections s.doc).today ∈
        (runCleanup env s).1.trace
    ∧ Event.usedSlice "backlog" (partition_by_sections s.doc).backlog ∈
        (runCleanup env s).1.trace
    ∧ (∃ pre post, (runCleanup env s).1.trace =
        pre ++ Event.fetched (doc6Of s)
          :: Event.usedSlice "backlog_repair" (repSliceOf s) :: post)
    ∧ repSliceOf s =
        pySlice (doc6Of s) (get_section_range (doc6Of s) "backlog").1
          (get_section_range (doc6Of s) "backlog").2
    ∧ (∃ pre post, (runCleanup env s).1.trace =
        pre ++ Event.fetched (doc7Of s)
          :: Event.usedSlice "placeholder_today"
              (partition_by_sections (doc7Of s)).today :: post) := by
  rw [runCleanup_nf env s th bh hth hbh hD hN]
  refine ⟨?_, ?_, ?_, rfl, ?_⟩
  · simp [traceNF, partsOf]
  · simp [traceNF, partsOf]
  · refine ⟨[Event.fetched s.doc]
      ++ [Event.usedSlice "daily" (partsOf s).daily]
      ++ dailyEvs (partsOf s).daily
      ++ (if (statsOf s).2 > 0 then
            dailyLogEvs env (statsOf s).1 (statsOf s).2 else [])
      ++ [Event.usedSlice "tomorrow" (partsOf s).tomorrow]
      ++ planEvs env (partsOf s).tomorrow
      ++ (if (mClOf s).isEmpty then []
          else [Event.insertedAfter (thOf s) (ins1Of s) (doc2Of s)])
      ++ (mDelOf s).map Event.deleted
      ++ [Event.usedSlice "today" (partsOf s).today]
      ++ [Event.usedSlice "backlog" (partsOf s).backlog]
      ++ bkEvs env (partsOf s).backlog
      ++ planEvs env (partsOf s).today
      ++ (if (tClOf s).isEmpty then []
          else [Event.fetched (doc4Of s),
                Event.insertedAfter (bh2Of s) (ins2Of s) (doc5Of s)])
      ++ (tDelOf s).map Event.deleted,
      (repDelOf s).map Event.deleted
      ++ [Event.fetched (doc7Of s)]
      ++ [Event.usedSlice "placeholder_today" (parts7Of s).today]
      ++ placeholderEvs (doc7Of s) (parts7Of s).today "today" (store7Of s)
      ++ [Event.usedSlice "placeholder_tomorrow" (parts7Of s).tomorrow]
      ++ placeholderEvs (doc7Of s) (parts7Of s).tomorrow "tomorrow" (store8Of s)
      ++ [Event.usedSlice "placeholder_daily" (parts7Of s).daily]
      ++ placeholderEvs (doc7Of s) (parts7Of s).daily "daily" (store9Of s), ?_⟩
    simp [traceNF, List.append_assoc]
  · refine ⟨[Event.fetched s.doc]
      ++ [Event.usedSlice "daily" (partsOf s).daily]
      ++ dailyEvs (partsOf s).daily
      ++ (if (statsOf s).2 > 0 then
            dailyLogEvs env (statsOf s).1 (statsOf s).2 else [])
      ++ [Event.usedSlice "tomorrow" (partsOf s).tomorrow]
      ++ planEvs env (partsOf s).tomorrow
      ++ (if (mClOf s).isEmpty then []
          else [Event.insertedAfter (thOf s) (ins1Of s) (doc2Of s)])
      ++ (mDelOf s).map Event.deleted
      ++ [Event.usedSlice "today" (partsOf s).today]
      ++ [Event.usedSlice "backlog" (partsOf s).backlog]
      ++ bkEvs env (partsOf s).backlog
      ++ planEvs env (partsOf s).today
      ++ (if (tClOf s).isEmpty then []
          else [Event.fetched (doc4Of s),
                Event.insertedAfter (bh2Of s) (ins2Of s) (doc5Of s)])
      ++ (tDelOf s).map Event.deleted
      ++ [Event.fetched (doc6Of s)]
      ++ [Event.usedSlice "backlog_repair" (repSliceOf s)]
      ++ (repDelOf s).map Event.deleted,
      placeholderEvs (doc7Of s) (parts7Of s).today "today" (store7Of s)
      ++ [Event.usedSlice "placeholder_tomorrow" (parts7Of s).tomorrow]
      ++ placeholderEvs (doc7Of s) (parts7Of s).tomorrow "tomorrow" (store8Of s)
      ++ [Event.usedSlice "placeholder_daily" (parts7Of s).daily]
      ++ placeholderEvs (doc7Of s) (parts7Of s).daily "daily" (store9Of s), ?_⟩
    simp [traceNF, parts7Of, List.append_assoc]

/-- Witness for C3 amended, at scenario B with the happy environment. -/
theorem c3_refetch_witness :
    section_header_id storeScenB.doc "today" = some 0
    ∧ section_header_id storeScenB.doc "backlog" = some 3
    ∧ Event.usedSlice "today" (partition_by_sections storeScenB.doc).today ∈
        (runCleanup envHappy storeScenB).1.trace :=
  ⟨by decide, by decide,
   (c3_refetch_discipline envHappy storeScenB 0 3 (by decide) (by decide)
      (by decide) (by decide)).1⟩

theorem dailyEvs_no_completion {l : List Block} {e : Event}
    (h : e ∈ dailyEvs l) : evCompletion e = none := by
  rcases mem_dailyEvs h with ⟨b, _, _, he⟩
  rw [he]; rfl

/-- The only cycle-outcome records in a whole-run trace are those of the
Daily-log step. -/
theorem traceNF_completions (env : Env) (s : Store) :
    (traceNF env s).filterMap evCompletion =
      (if (statsOf s).2 > 0 then
        dailyLogEvs env (statsOf s).1 (statsOf s).2 else []).filterMap
          evCompletion := by
  unfold traceNF
  simp only [List.filterMap_append]
  rw [List.filterMap_eq_nil_iff.mpr (fun e he => dailyEvs_no_completion he)]
  rw [List.filterMap_eq_nil_iff.mpr (fun e he => planEvs_no_completion he)]
  rw [List.filterMap_eq_nil_iff.mpr (fun e he => planEvs_no_completion he)]
  rw [List.filterMap_eq_nil_iff.mpr (fun e he => bkEvs_no_completion he)]
  rw [List.filterMap_eq_nil_iff.mpr
    (fun e he => deleted_map_no_completion he)]
  rw [List.filterMap_eq_nil_iff.mpr
    (fun e he => deleted_map_no_completion he)]
  rw [List.filterMap_eq_nil_iff.mpr
    (fun e he => deleted_map_no_completion he)]
  rw [List.filterMap_eq_nil_iff.mpr
    (fun e he => placeholderEvs_no_completion he)]
  rw [List.filterMap_eq_nil_iff.mpr
    (fun e he => placeholderEvs_no_completion he)]
  rw [List.filterMap_eq_nil_iff.mpr
    (fun e he => placeholderEvs_no_completion he)]
  have hmig : (if (mClOf s).isEmpty then []
      else [Event.insertedAfter (thOf s) (ins1Of s)
        (doc2Of s)]).filterMap evCompletion = [] := by
    split <;> rfl
  have hdem : (if (tClOf s).isEmpty then []
      else [Event.fetched (doc4Of s),
        Event.insertedAfter (bh2Of s) (ins2Of s)
          (doc5Of s)]).filterMap evCompletion = [] := by
    split <;> rfl
  rw [hmig, hdem]
  simp [evCompletion]

/-- C6: with the completion database resolved and its write succeeding,
the run writes exactly one cycle-outcome record "completed/total" when the
Daily slice has at least one to_do item, and none otherwise, with both
counters taken from the pre-reset snapshot; every Daily checklist item ends
the run present with checked = false and unchanged id, kind and text; and
the Daily reset is idempotent on the document (applying it twice equals
applying it once). -/
theorem c6_daily_reset (env : Env) (s : Store) (th bh : Nat)
    (hth : section_header_id s.doc "today" = some th)
    (hbh : section_header_id s.doc "backlog" = some bh)
    (hdb : env.dailyDb = true) (hdw : env.dailyWrite = .ok)
    (hN : env.doneWrite ≠ .httpErr) (hid : IdsOK s.nextId s.doc) :
    ((runCleanup env s).1.trace.filterMap evCompletion =
      (if (dailyStats (partition_by_sections s.doc).daily).2 > 0 then
        [toString (dailyStats (partition_by_sections s.doc).daily).1 ++ "/"
          ++ toString (dailyStats (partition_by_sections s.doc).daily).2]
       else []))
    ∧ (∀ b ∈ (partition_by_sections s.doc).daily, b.kind = BlockKind.todo →
        { b with checked := false } ∈ (runCleanup env s).1.store.doc)
    ∧ applyDailyReset (partition_by_sections s.doc).daily
        (applyDailyReset (partition_by_sections s.doc).daily s.doc)
      = applyDailyReset (partition_by_sections s.doc).daily s.doc := by
  have hD : env.dailyWrite ≠ .httpErr := by rw [hdw]; intro h; cases h
  rw [runCleanup_nf env s th bh hth hbh hD hN]
  refine ⟨?_, ?_, applyDailyReset_idem _ _⟩
  · rw [traceNF_completions env s]
    by_cases hc : (statsOf s).2 > 0
    · rw [if_pos hc, if_pos (by simpa [statsOf, partsOf] using hc)]
      unfold dailyLogEvs
      rw [hdb, hdw]
      simp [evCompletion, statsOf, partsOf]
    · rw [if_neg hc, if_neg (by simpa [statsOf, partsOf] using hc)]
      rfl
  · intro b hb hk
    exact daily_todo_survives s hid hb hk

/-- Witness for C6: Daily section with three items, two checked — one
outcome record "2/3" is written, and all three items end unchecked. -/
theorem c6_witness :
    section_header_id storeDaily23.doc "today" = some 4
    ∧ IdsOK storeDaily23.nextId storeDaily23.doc
    ∧ (runCleanup envHappy storeDaily23).1.trace.filterMap evCompletion =
        ["2/3"] := by
  refine ⟨by decide, ⟨by decide, by decide⟩, ?_⟩
  have h := (c6_daily_reset envHappy storeDaily23 4 5 (by decide) (by decide)
    (by decide) (by decide) (by decide) ⟨by decide, by decide⟩).1
  rw [h]
  decide

theorem exists_index_of_mem_take {l : List Block} {k : Nat} {b : Block}
    (h : b ∈ l.take k) :
    ∃ j, j < k ∧ ∃ hj : j < l.length, l.get ⟨j, hj⟩ = b := by
  rcases List.mem_iff_getElem.mp h with ⟨j, hj, hjb⟩
  have hjk : j < k := by simp [List.length_take] at hj; exact hj.1
  have hjl : j < l.length := by simp [List.length_take] at hj; exact hj.2
  refine ⟨j, hjk, hjl, ?_⟩
  have : getElem (l.take k) j hj = getElem l j hjl := List.getElem_take _
  rw [List.get_eq_getElem, ← this, hjb]

/-- Bridge between `section_header_id` (first matching block's id) and
`headerIdx` (first matching index). -/
theorem section_header_id_index {blocks : List Block} {sec : String} {th : Nat}
    (h : section_header_id blocks sec = some th) :
    ∃ i, headerIdx blocks (capitalizeStr sec) = some i
      ∧ ∃ hi : i < blocks.length, (blocks.get ⟨i, hi⟩).id = th := by
  unfold section_header_id at h
  unfold headerIdx
  cases hidx : findFirstIdx
      (fun b => is_header_with_text b [capitalizeStr sec]) blocks with
  | none =>
      rw [find?_none_of_findFirstIdx_none hidx] at h
      cases h
  | some i =>
      rcases find?_eq_of_findFirstIdx hidx with ⟨hi, hfind⟩
      rw [hfind] at h
      simp only [Option.some.injEq] at h
      exact ⟨i, rfl, hi, h⟩

/-- C8: with at least one unchecked Tomorrow item, the run's trace contains
one single insertion event carrying all their unchecked copies, anchored at
the Today header, with no deletion (and no other insertion) anywhere before
it, immediately followed by the deletions of every marked Tomorrow
original; and in the document at that moment the batch sits immediately
after the Today header block, before every pre-existing Today item. -/
theorem c8_migration_append_then_delete (env : Env) (s : Store) (th bh : Nat)
    (hth : section_header_id s.doc "today" = some th)
    (hbh : section_header_id s.doc "backlog" = some bh)
    (hD : env.dailyWrite ≠ .httpErr) (hN : env.doneWrite ≠ .httpErr)
    (hid : IdsOK s.nextId s.doc)
    (hne : (mClOf s).isEmpty = false) :
    (∃ pre post,
        (runCleanup env s).1.trace =
          pre ++ Event.insertedAfter th (ins1Of s) (doc2Of s)
            :: ((mDelOf s).map Event.deleted ++ post)
        ∧ ∀ e ∈ pre, isMutationEvent e = false)
    ∧ ins1Of s =
        assignIds s.nextId (planClones (partition_by_sections s.doc).tomorrow)
    ∧ mDelOf s = planDeleteIds (partition_by_sections s.doc).tomorrow
    ∧ (∃ u hdr v, doc1Of s = u ++ hdr :: v ∧ hdr.id = th
        ∧ doc2Of s = u ++ hdr :: (ins1Of s ++ v)
        ∧ ∀ b ∈ (partition_by_sections s.doc).today,
            ∃ b2 ∈ v, b2.id = b.id) := by
  have hthOf : thOf s = th := by simp [thOf, hth]
  refine ⟨?_, rfl, rfl, ?_⟩
  · rw [runCleanup_nf env s th bh hth hbh hD hN]
    refine ⟨[Event.fetched s.doc]
      ++ [Event.usedSlice "daily" (partsOf s).daily]
      ++ dailyEvs (partsOf s).daily
      ++ (if (statsOf s).2 > 0 then
            dailyLogEvs env (statsOf s).1 (statsOf s).2 else [])
      ++ [Event.usedSlice "tomorrow" (partsOf s).tomorrow]
      ++ planEvs env (partsOf s).tomorrow,
      [Event.usedSlice "today" (partsOf s).today]
      ++ [Event.usedSlice "backlog" (partsOf s).backlog]
      ++ bkEvs env (partsOf s).backlog
      ++ planEvs env (partsOf s).today
      ++ (if (tClOf s).isEmpty then []
          else [Event.fetched (doc4Of s),
                Event.insertedAfter (bh2Of s) (ins2Of s) (doc5Of s)])
      ++ (tDelOf s).map Event.deleted
      ++ [Event.fetched (doc6Of s)]
      ++ [Event.usedSlice "backlog_repair" (repSliceOf s)]
      ++ (repDelOf s).map Event.deleted
      ++ [Event.fetched (doc7Of s)]
      ++ [Event.usedSlice "placeholder_today" (parts7Of s).today]
      ++ placeholderEvs (doc7Of s) (parts7Of s).today "today" (store7Of s)
      ++ [Event.usedSlice "placeholder_tomorrow" (parts7Of s).tomorrow]
      ++ placeholderEvs (doc7Of s) (parts7Of s).tomorrow "tomorrow" (store8Of s)
      ++ [Event.usedSlice "placeholder_daily" (parts7Of s).daily]
      ++ placeholderEvs (doc7Of s) (parts7Of s).daily "daily" (store9Of s),
      ?_, ?_⟩
    · simp [traceNF, hne, hthOf, List.append_assoc]
    · intro e he
      rcases List.mem_append.mp he with h1 | h1
      · rcases List.mem_append.mp h1 with h2 | h2
        · rcases List.mem_append.mp h2 with h3 | h3
          · rcases List.mem_append.mp h3 with h4 | h4
            · rcases List.mem_append.mp h4 with h5 | h5
              · rcases List.mem_singleton.mp h5 with h6
                rw [h6]; rfl
              · rcases List.mem_singleton.mp h5 with h6
                rw [h6]; rfl
            · exact dailyEvs_no_mutation h4
          · by_cases hc : (statsOf s).2 > 0
            · rw [if_pos hc] at h3
              exact dailyLogEvs_no_mutation h3
            · rw [if_neg hc] at h3; cases h3
        · rcases List.mem_singleton.mp h2 with h6
          rw [h6]; rfl
      · exact planEvs_no_mutation h1
  · rcases section_header_id_index hth with ⟨ti, hti, htilen, htid⟩
    rw [show capitalizeStr "today" = "Today" by decide] at hti
    set f := resetFun (planDeleteIds (partsOf s).daily) with hf
    have hsplit : s.doc =
        s.doc.take ti ++ s.doc.get ⟨ti, htilen⟩ :: s.doc.drop (ti+1) := by
      have hg : s.doc.get ⟨ti, htilen⟩ = getElem s.doc ti htilen :=
        List.get_eq_getElem _ _
      calc s.doc = s.doc.take ti ++ s.doc.drop ti :=
            (List.take_append_drop ti _).symm
        _ = s.doc.take ti ++ (s.doc.get ⟨ti, htilen⟩ :: s.doc.drop (ti+1)) := by
            rw [← List.getElem_cons_drop s.doc ti htilen, ← hg]
    refine ⟨(s.doc.take ti).map f, f (s.doc.get ⟨ti, htilen⟩),
      (s.doc.drop (ti+1)).map f, ?_, ?_, ?_, ?_⟩
    · unfold doc1Of
      rw [applyDailyReset_eq_map, ← hf]
      conv_lhs => rw [hsplit]
      rw [List.map_append, List.map_cons]
    · rw [hf, (resetFun_fields _ _).1, htid]
    · unfold doc2Of
      rw [hne]
      simp only [Bool.false_eq_true, if_neg, not_false_iff]
      rw [hthOf]
      have hdoc1 : doc1Of s =
          (s.doc.take ti).map f ++ f (s.doc.get ⟨ti, htilen⟩)
            :: (s.doc.drop (ti+1)).map f := by
        unfold doc1Of
        rw [applyDailyReset_eq_map, ← hf]
        conv_lhs => rw [hsplit]
        rw [List.map_append, List.map_cons]
      rw [hdoc1]
      apply insertAfterDoc_split
      · rw [hf, (resetFun_fields _ _).1, htid]
      · intro x hx
        rcases List.mem_map.mp hx with ⟨y, hy, hyx⟩
        rcases exists_index_of_mem_take hy with ⟨j, hjti, hjlen, hjy⟩
        intro hxa
        have hyid : y.id = th := by
          rw [← hyx, hf] at hxa
          rw [← (resetFun_fields (planDeleteIds (partsOf s).daily) y).1]
          exact hxa
        have hmj : j < (s.doc.map Block.id).length := by simpa using hjlen
        have hmti : ti < (s.doc.map Block.id).length := by simpa using htilen
        have hjti2 : j = ti := by
          apply index_unique_nat hid.1 hmj hmti
          rw [List.get_eq_getElem, List.get_eq_getElem, List.getElem_map,
            List.getElem_map]
          have h1 : getElem s.doc j hjlen = y := by
            rw [← hjy, List.get_eq_getElem]
          have h2 : (getElem s.doc ti htilen).id = th := by
            simpa [List.get_eq_getElem] using htid
          rw [h1, hyid, h2]
        omega
    · intro b hb
      rcases mem_today_index hb with ⟨t, ht, i, hit, hilen, hib⟩
      have hti2 : t = ti := by
        rw [ht] at hti
        injection hti
      subst hti2
      refine ⟨f b, ?_, by rw [hf, (resetFun_fields _ _).1]⟩
      apply List.mem_map_of_mem
      rw [← hib]
      exact mem_drop_of_index hilen (by omega)

/-- Witness for C8 at scenario B: one unchecked Tomorrow item exists and
the single migration insert carries its unchecked copy anchored at the
Today header id 0. -/
theorem c8_witness :
    (mClOf storeScenB).isEmpty = false
    ∧ ins1Of storeScenB =
        assignIds storeScenB.nextId
          (planClones (partition_by_sections storeScenB.doc).tomorrow) :=
  ⟨by decide,
   (c8_migration_append_then_delete envHappy storeScenB 0 3 (by decide)
      (by decide) (by decide) (by decide) ⟨by decide, by decide⟩
      (by decide)).2.1⟩

/-- C10: a block that is not a checklist item and is not an empty paragraph
lying inside the Backlog range — headers, non-empty paragraphs anywhere,
other block types, and empty paragraphs outside Backlog — is never deleted
and never has its content changed by any step of the run: the identical
block record is still present in the final document. -/
theorem c10_non_item_blocks_untouched (env : Env) (s : Store) (th bh : Nat)
    (hth : section_header_id s.doc "today" = some th)
    (hbh : section_header_id s.doc "backlog" = some bh)
    (hD : env.dailyWrite ≠ .httpErr) (hN : env.doneWrite ≠ .httpErr)
    (hid : IdsOK s.nextId s.doc) :
    ∀ b ∈ s.doc, ¬ b.kind = BlockKind.todo →
    ¬ (is_empty_paragraph b = true ∧ inBacklogRange s.doc b) →
    b ∈ (runCleanup env s).1.store.doc := by
  intro b hb hk hpar
  rw [runCleanup_nf env s th bh hth hbh hD hN]
  exact protected_block_survives s hid hb hk hpar

/-- Witness for C10 at scenario B: the Tomorrow header block survives the
run unchanged. -/
theorem c10_witness :
    (exBlock 1 BlockKind.heading "Tomorrow:" false) ∈ storeScenB.doc
    ∧ (exBlock 1 BlockKind.heading "Tomorrow:" false) ∈
        (runCleanup envHappy storeScenB).1.store.doc :=
  ⟨by decide,
   c10_non_item_blocks_untouched envHappy storeScenB 0 3 (by decide)
     (by decide) (by decide) (by decide) ⟨by decide, by decide⟩
     (exBlock 1 BlockKind.heading "Tomorrow:" false) (by decide) (by decide)
     (by decide)⟩
